import Mathlib

/-!
Verification of `tools/mpp-import-pipeline.py` (osbuild manifest pre-processor,
pipeline import).

The tool consumes a JSON manifest, resolves `mpp-import-pipeline` directives
(format versions "1" and "2"), merges sources from the referenced manifests,
and emits the resolved manifest.  We model JSON values as `JVal`, Python dicts
as insertion-ordered association lists, and every fallible Python operation
(missing key, attribute error on a non-dict, failed assertion, raised
`ValueError`, unreadable import file) as an `Except PyErr` computation.
Success (`Except.ok`) corresponds to the program writing the resolved manifest
to stdout; `Except.error` corresponds to a fatal abort with no output.
-/

namespace Mpp

/-- JSON values, as produced by Python's `json.load`: `null`, booleans,
numbers (we restrict to integers; nothing in the tool is number-specific),
strings, arrays, and objects.  Objects are insertion-ordered association
lists, mirroring Python 3.7+ dicts, which preserve insertion order. -/
inductive JVal where
  | null : JVal
  | bool : Bool → JVal
  | num  : Int → JVal
  | str  : String → JVal
  | arr  : List JVal → JVal
  | obj  : List (String × JVal) → JVal

/-- Fields of a JSON object / entries of a Python dict, in insertion order. -/
abbrev Fields := List (String × JVal)

/-- Python `d[k]` read / `k in d` test on a dict: first binding of the key.
Dicts built by `json.load` never contain duplicate keys, so "first" is
unambiguous on all reachable values. -/
def dget : Fields → String → Option JVal
  | [], _ => none
  | (k, v) :: rest, key => if k = key then some v else dget rest key

/-- Python `d[k] = v` on a dict: overwrite in place when the key exists
(keeping its position, as Python dicts do), append otherwise. -/
def dset : Fields → String → JVal → Fields
  | [], key, v => [(key, v)]
  | (k, w) :: rest, key, v =>
      if k = key then (k, v) :: rest else (k, w) :: dset rest key v

/-- Python `del d[k]`. -/
def ddel : Fields → String → Fields
  | [], _ => []
  | (k, w) :: rest, key =>
      if k = key then ddel rest key else (k, w) :: ddel rest key

/-- Python `d.update(other)`: insert every binding of `other` into `d` in
order; existing keys keep their position, new keys are appended. -/
def dupdate (f incoming : Fields) : Fields :=
  incoming.foldl (fun acc p => dset acc p.1 p.2) f

/-- The source's `_manifest_enter(manifest, key, default)` (lines 54-57):
return the existing value of `key`, or insert `default` and return it.
Returns the updated dict together with the value. -/
def denter (f : Fields) (key : String) (default : JVal) : Fields × JVal :=
  match dget f key with
  | some v => (f, v)
  | none => (f ++ [(key, default)], default)

/-- Python truthiness of a JSON value (`if x:`): `None`, `False`, `0`, `""`,
`[]` and an empty dict are falsy, everything else truthy. -/
def truthy : JVal → Bool
  | .null => false
  | .bool b => b
  | .num n => n != 0
  | .str s => s != ""
  | .arr l => !l.isEmpty
  | .obj f => !f.isEmpty

mutual
/-- Structural equality of JSON values, modelling Python `==`.  It agrees
with Python equality on all scalar comparisons (the only comparisons the
tool performs on data the spec admits: the `version` field and v2 pipeline
names are strings); for containers Python's `==` additionally ignores dict
ordering, which no claim depends on. -/
def JVal.beq : JVal → JVal → Bool
  | .null, .null => true
  | .bool a, .bool b => a == b
  | .num a, .num b => a == b
  | .str a, .str b => a == b
  | .arr a, .arr b => JVal.beqList a b
  | .obj a, .obj b => JVal.beqFields a b
  | _, _ => false

/-- Pointwise `JVal.beq` on lists. -/
def JVal.beqList : List JVal → List JVal → Bool
  | [], [] => true
  | x :: xs, y :: ys => JVal.beq x y && JVal.beqList xs ys
  | _, _ => false

/-- Pointwise `JVal.beq` on object fields. -/
def JVal.beqFields : List (String × JVal) → List (String × JVal) → Bool
  | [], [] => true
  | (k, v) :: xs, (l, w) :: ys => k == l && JVal.beq v w && JVal.beqFields xs ys
  | _, _ => false
end

/-- Python `str(x)` for the scalar values that can appear in the tool's
f-string diagnostics.  Containers are abbreviated; the claims only apply it
to strings, where it is exact. -/
def pyStr : JVal → String
  | .str s => s
  | .num n => toString n
  | .bool b => if b then "True" else "False"
  | .null => "None"
  | .arr _ => "[...]"
  | .obj _ => "\x7b...\x7d"

/-- Outcomes of the fatal conditions the tool can hit, mirroring the Python
exception (or, for `unsupportedVersion`, the nonzero return of
`_main_process`).  Any of these aborts the run with no output. -/
inductive PyErr where
  | keyError (key : String)
  | typeError
  | attributeError
  | assertionError
  | valueError (msg : String)
  | ioError (path : String)
  | unsupportedVersion
deriving DecidableEq

/-- Lexicographic string comparison on Unicode code points — the order
Python uses on `str`.  (Lean's built-in `String` order is defined through
iterators and does not reduce in the kernel, so we use our own.) -/
def strLeAux : List Char → List Char → Bool
  | [], _ => true
  | _ :: _, [] => false
  | a :: as, b :: bs =>
      if a.toNat < b.toNat then true
      else if b.toNat < a.toNat then false
      else strLeAux as bs

/-- String comparison on the underlying character lists. -/
def strLe (a b : String) : Bool := strLeAux a.data b.data

/-- Key extraction of `_sort_urls.get_sort_key` (lines 61-65): the entry's
value itself, or its `"url"` field when the value is a dict (`KeyError` when
a dict value lacks `"url"`). -/
def urlSortKey (item : String × JVal) : Except PyErr JVal :=
  match item.2 with
  | .obj d =>
      match dget d "url" with
      | some u => .ok u
      | none => .error (.keyError "url")
  | v => .ok v

/-- Total variant of `urlSortKey` used as the comparator key once extraction
has been validated; on entries whose key is not a string (runs that have
already failed) it returns `""`. -/
def urlKeyStr (item : String × JVal) : String :=
  match urlSortKey item with
  | .ok (.str s) => s
  | _ => ""

/-- Comparator on url entries: ascending by extracted URL string. -/
def urlLe (a b : String × JVal) : Prop :=
  strLe (urlKeyStr a) (urlKeyStr b) = true

instance : DecidableRel urlLe := fun _ _ =>
  inferInstanceAs (Decidable (_ = true))

/-- The source's `_sort_urls` (lines 60-72): leave a falsy `urls` unchanged;
otherwise rebuild the dict with its entries sorted ascending by extracted
URL key.  Python's `sorted` first computes the key of every entry (surfacing
`KeyError` for a composite descriptor lacking `"url"`), then compares keys;
with at most one entry no comparison happens, and comparing the non-string
keys is fatal (Python would also accept uniformly-comparable non-string
keys, which the tool's URL data model never produces).
`List.insertionSort` is a stable ascending sort, which is exactly the result
Python's stable `sorted` produces for a total preorder on keys.  Calling it
on a truthy non-dict is an `AttributeError` (`.items()`). -/
def sortUrls (u : JVal) : Except PyErr JVal :=
  if truthy u = false then .ok u
  else match u with
    | .obj uf => do
        let keys ← uf.mapM urlSortKey
        if uf.length ≤ 1 then .ok (.obj uf)
        else if keys.all (fun k => match k with | .str _ => true | _ => false) then
          .ok (.obj (List.insertionSort urlLe uf))
        else .error .typeError
    | _ => .error .attributeError

/-- Lines 79-81 of `_manifest_parse_v1` (also 113-115 on the imported
manifest): get-or-create `sources`, `sources["org.osbuild.files"]`, and
`...["urls"]`.  Returns the updated root fields together with the value
sitting at `urls` — the dict the Python code keeps the `manifest_urls` alias
to.  Entering a key of a truthy non-dict raises in Python (`in`-test or item
assignment on the wrong type); a non-dict value already present at `urls` is
returned as-is, exactly as `_manifest_enter` does. -/
def enterSourcesUrls (f : Fields) : Except PyErr (Fields × JVal) :=
  let r1 := denter f "sources" (.obj [])
  match r1.2 with
  | .obj sf =>
    let r2 := denter sf "org.osbuild.files" (.obj [])
    match r2.2 with
    | .obj ff =>
      let r3 := denter ff "urls" (.obj [])
      .ok (dset r1.1 "sources" (.obj (dset r2.1 "org.osbuild.files" (.obj r3.1))), r3.2)
    | _ => .error .typeError
  | _ => .error .typeError

/-- The build-chain walk of `_manifest_parse_v1` (lines 90-96): starting at
the manifest root, stop at the first (shallowest) node containing an
`mpp-import-pipeline` key and report its depth; otherwise descend into
`current["pipeline"]["build"]`, ending when that is absent or falsy.  A
truthy non-dict node is fatal (`in`-test / `.get` on the wrong type).
`fuel` only bounds the recursion; `walkDepth` supplies enough fuel for any
value, so the fuel-exhausted branch is unreachable from `walkDepth`. -/
def walkAux : Nat → JVal → Except PyErr (Option Nat)
  | 0, _ => .error .typeError
  | fuel + 1, cur =>
    if truthy cur = false then .ok none
    else match cur with
      | .obj f =>
        if (dget f "mpp-import-pipeline").isSome then .ok (some 0)
        else match dget f "pipeline" with
          | none => .ok none
          | some p =>
            match p with
            | .obj pf =>
              match dget pf "build" with
              | none => .ok none
              | some b => (walkAux fuel b).map (Option.map (· + 1))
            | _ => .error .attributeError
      | _ => .error .typeError

mutual
/-- Computable size of a JSON value, used only to supply recursion fuel for
the build-chain walk. -/
def JVal.size : JVal → Nat
  | .null => 1
  | .bool _ => 1
  | .num _ => 1
  | .str _ => 1
  | .arr l => 1 + JVal.sizeList l
  | .obj f => 1 + JVal.sizeFields f

/-- Size of a list of JSON values. -/
def JVal.sizeList : List JVal → Nat
  | [] => 0
  | x :: xs => JVal.size x + JVal.sizeList xs + 1

/-- Size of object fields. -/
def JVal.sizeFields : List (String × JVal) → Nat
  | [] => 0
  | (_, v) :: xs => JVal.size v + JVal.sizeFields xs + 1
end

/-- Depth of the first `mpp-import-pipeline` node along the build chain. -/
def walkDepth (v : JVal) : Except PyErr (Option Nat) :=
  walkAux (JVal.size v) v

/-- Node of the v1 build chain at a given depth: depth 0 is the manifest
root, depth `k+1` is `node(k)["pipeline"]["build"]`. -/
def nodeAt : JVal → Nat → Option JVal
  | v, 0 => some v
  | .obj f, k + 1 =>
      match dget f "pipeline" with
      | some (.obj pf) =>
          match dget pf "build" with
          | some b => nodeAt b k
          | none => none
      | _ => none
  | _, _ => none

/-- Python's `list.sort()` sorts in place and returns `None`.  The v1
top-level-key check (line 127) compares the results of two `.sort()` calls —
that is, `None == None` — so it passes whatever the keys are: the assertion
is a no-op in the source. -/
def pySortResult (_ : List String) : Option (List String) := none

/-- The body of `_manifest_process_v1` (lines 104-127 and 135-136) acting on
the fields of the chain node holding the directive: read the directive and
its `path`, load the referenced manifest, get-or-create its
`sources`/`org.osbuild.files`/`urls` and `pipeline` keys, run the two
assertions, then replace the node's `pipeline` wholesale with the imported
one and delete the directive key.  Returns the updated node fields together
with the imported `urls` value; the caller (`runV1`) merges those urls into
the root mapping (line 134, which in the source happens between the asserts
and the node mutation — the two touch disjoint data). -/
def processV1Node (load : String → Option JVal) (tf : Fields) :
    Except PyErr (Fields × JVal) :=
  let e := denter tf "mpp-import-pipeline" (.obj [])
  match e.2 with
  | .obj mf =>
    match dget mf "path" with
    | none => .error (.keyError "path")
    | some (.str path) =>
      match load path with
      | none => .error (.ioError path)
      | some (.obj impF) =>
        let i1 := denter impF "sources" (.obj [])
        match i1.2 with
        | .obj isf =>
          let i2 := denter isf "org.osbuild.files" (.obj [])
          match i2.2 with
          | .obj iff =>
            let i3 := denter iff "urls" (.obj [])
            let impF2 := dset i1.1 "sources" (.obj (dset i2.1 "org.osbuild.files" (.obj i3.1)))
            let i4 := denter impF2 "pipeline" (.obj [])
            if i2.1.map Prod.fst = ["org.osbuild.files"] then
              if pySortResult (i4.1.map Prod.fst) = pySortResult ["pipeline", "sources"] then
                .ok (ddel (dset e.1 "pipeline" i4.2) "mpp-import-pipeline", i3.2)
              else .error .assertionError
            else .error .assertionError
          | _ => .error .typeError
        | _ => .error .typeError
      | some _ => .error .attributeError
    | some _ => .error .typeError
  | _ => .error .typeError

/-- Apply the v1 directive processing to the chain node at depth `d`,
rebuilding the manifest along the `pipeline`/`build` spine — the functional
counterpart of Python mutating the aliased node dict in place.  The
non-object fallbacks are unreachable when `d` comes from the walk, which
only descends through object nodes. -/
def updateAtDepth (v : JVal) (d : Nat) (g : Fields → Except PyErr (Fields × JVal)) :
    Except PyErr (JVal × JVal) :=
  match d, v with
  | 0, .obj tf => (g tf).map (fun r => (.obj r.1, r.2))
  | d + 1, .obj f =>
      match dget f "pipeline" with
      | some (.obj pf) =>
          match dget pf "build" with
          | some b =>
              (updateAtDepth b d g).map
                (fun r => (.obj (dset f "pipeline" (.obj (dset pf "build" r.1))), r.2))
          | none => .error .typeError
      | _ => .error .typeError
  | _, _ => .error .typeError

/-- Write the (merged, sorted) urls value back at
`sources.org.osbuild.files.urls` — the functional counterpart of the
`manifest_urls` alias: Python mutates that dict in place and the root
manifest sees the mutation.  The fallback branches are unreachable in
`runV1`, whose parse phase has already materialised the path. -/
def setUrlsAtRoot (f : Fields) (u : JVal) : Fields :=
  match dget f "sources" with
  | some (.obj sf) =>
    match dget sf "org.osbuild.files" with
    | some (.obj ff) =>
      dset f "sources" (.obj (dset sf "org.osbuild.files" (.obj (dset ff "urls" u))))
    | _ => f
  | _ => f

/-- Format-version-1 resolution: `_manifest_import_v1` (parse, lines 75-101;
process, lines 104-136) followed by the `_sort_urls` call of `_main_process`
(line 240).  The returned manifest is what the program serializes to stdout;
an error is a fatal abort with no output.  The walk only records the first
directive along the chain, so at most one node is processed.  The imported
urls are merged into the root url mapping with incoming keys winning
(`dict.update`, line 134); both that mapping and the merge argument must be
dicts (`AttributeError` / `TypeError` otherwise). -/
def runV1 (load : String → Option JVal) (f : Fields) : Except PyErr JVal := do
  let r ← enterSourcesUrls f
  let d? ← walkDepth (.obj r.1)
  match d? with
  | none => do
      let u ← sortUrls r.2
      pure (.obj (setUrlsAtRoot r.1 u))
  | some d => do
      let pr ← updateAtDepth (.obj r.1) d (processV1Node load)
      match pr.1, r.2, pr.2 with
      | .obj f3, .obj uf, .obj iuf => do
          let u ← sortUrls (.obj (dupdate uf iuf))
          pure (.obj (setUrlsAtRoot f3 u))
      | .obj _, .obj _, _ => .error .typeError
      | .obj _, _, _ => .error .attributeError
      | _, _, _ => .error .typeError

/-- Lines 178-181: when the incoming descriptor has a truthy `options`,
get-or-create `options` on the target and merge the incoming `options` per
sub-key.  Calling `.update` on a non-dict entered sub-dict is an
`AttributeError`; passing a truthy non-dict as the `update` argument is
modelled as fatal (Python would accept an iterable of pairs there, which
the manifest data model never contains). -/
def mergeOptionsStep (tf df : Fields) : Except PyErr Fields :=
  if truthy ((dget df "options").getD .null) then
    let e := denter tf "options" (.obj [])
    match e.2, dget df "options" with
    | .obj opf, some (.obj ovf) => .ok (dset e.1 "options" (.obj (dupdate opf ovf)))
    | .obj _, _ => .error .typeError
    | _, _ => .error .attributeError
  else .ok tf

/-- Lines 182-183: get-or-create `items` on the (options-merged) target and
merge the incoming `items` (defaulting to empty) per sub-key. -/
def mergeItemsStep (tf1 df : Fields) : Except PyErr JVal :=
  let e2 := denter tf1 "items" (.obj [])
  match e2.2, (dget df "items").getD (.obj []) with
  | .obj itf, .obj dif => .ok (.obj (dset e2.1 "items" (.obj (dupdate itf dif))))
  | .obj _, _ => .error .typeError
  | _, _ => .error .attributeError

/-- Body of the v2 source-merge loop (lines 171-183) for one incoming kind:
`target = sources.get(source)`; a falsy target (absent, `None`, or notably
an empty dict) is replaced wholesale by the incoming descriptor; a truthy
target is merged in place through the options and items steps.  Calling
`.get` on a non-dict descriptor, or merging into a truthy non-dict target,
is fatal. -/
def mergeOneSource (targetOpt : Option JVal) (desc : JVal) : Except PyErr JVal :=
  match targetOpt with
  | none => .ok desc
  | some t =>
    if truthy t = false then .ok desc
    else match desc with
      | .obj df =>
        match t with
        | .obj tf => do
            let tf1 ← mergeOptionsStep tf df
            mergeItemsStep tf1 df
        | _ => .error .typeError
      | _ => .error .attributeError

/-- The v2 source-merge loop (lines 171-183) over every incoming source
kind, in insertion order.  `sources.get` on a non-dict sources value is
fatal at the first iteration (and never reached when the imported manifest
declares no sources, exactly as in the source). -/
def mergeSourcesV2 (sv : JVal) : Fields → Except PyErr JVal
  | [] => .ok sv
  | (k, desc) :: rest =>
    match sv with
    | .obj sf => do
        let d ← mergeOneSource (dget sf k) desc
        mergeSourcesV2 (.obj (dset sf k d)) rest
    | _ => .error .attributeError

/-- The v2 pipeline search (lines 190-194): first entry whose `"name"`
equals the requested id (Python `==`).  An entry without a `"name"` key, or
a non-dict entry, is fatal before any later entry is examined. -/
def findPipeline : List JVal → JVal → Except PyErr (Option JVal)
  | [], _ => .ok none
  | .obj pf :: rest, pid =>
      match dget pf "name" with
      | some nm =>
          if JVal.beq nm pid then .ok (some (.obj pf)) else findPipeline rest pid
      | none => .error (.keyError "name")
  | _ :: _, _ => .error .typeError

/-- The body of `_manifest_process_v2` (lines 160-200) for one importing
entry, acting on the root `sources` value and the entry's fields: read the
directive and its `path`, load the referenced manifest, merge its sources
kind-by-kind, read the directive's `id` (only after the merge, as in the
source), search the referenced `pipelines` for that name — raising
`ValueError` with the id and path when absent — and finally overlay the
found entry's fields onto the importing entry (`dict.update`, incoming keys
win, existing keys keep their position) and delete the directive key.
Returns the new sources value and the new entry fields. -/
def processV2Entry (load : String → Option JVal) (sv : JVal) (ef : Fields) :
    Except PyErr (JVal × Fields) :=
  match dget ef "mpp-import-pipeline" with
  | some (.obj mf) =>
    match dget mf "path" with
    | none => .error (.keyError "path")
    | some (.str path) =>
      match load path with
      | none => .error (.ioError path)
      | some (.obj impF) => do
        let impSrcs ← match (dget impF "sources").getD (.obj []) with
          | .obj isf => pure isf
          | _ => .error .attributeError
        let sv2 ← mergeSourcesV2 sv impSrcs
        let ps ← match (dget impF "pipelines").getD (.arr []) with
          | .arr l => pure l
          | .obj ([] : Fields) => pure ([] : List JVal)
          | .str "" => pure []
          | _ => .error .typeError
        match dget mf "id" with
        | none => .error (.keyError "id")
        | some pid => do
          let t? ← findPipeline ps pid
          match t? with
          | none =>
              .error (.valueError
                ("Pipeline \x27" ++ pyStr pid ++ "\x27 not found in " ++ path))
          | some (.obj tfF) =>
              pure (sv2, ddel (dupdate ef tfF) "mpp-import-pipeline")
          | some _ => .error .typeError
      | some _ => .error .attributeError
    | some _ => .error .typeError
  | some _ => .error .typeError
  | none => .error (.keyError "mpp-import-pipeline")

/-- The v2 parse loop (lines 151-154): indices of the pipeline entries whose
`mpp-import-pipeline` value is truthy — a falsy directive value (absent,
`None`, or notably an empty dict) is not collected at all.  A non-dict entry
is fatal (`.get`). -/
def todoIndicesAux : List JVal → Nat → Except PyErr (List Nat)
  | [], _ => .ok []
  | .obj pf :: rest, i =>
      if truthy ((dget pf "mpp-import-pipeline").getD .null) then
        (todoIndicesAux rest (i + 1)).map (fun r => i :: r)
      else todoIndicesAux rest (i + 1)
  | _ :: _, _ => .error .attributeError

/-- One iteration of the v2 import loop (lines 205-206 driving lines
160-200): get-or-create the root `sources` (line 162), process the entry at
the recorded index, and write back the merged sources and rebuilt entry —
the functional counterpart of Python mutating the aliased dicts in place.
The non-object fallbacks are unreachable for indices produced by the
parse. -/
def stepV2 (load : String → Option JVal) (f : Fields) (i : Nat) :
    Except PyErr Fields :=
  let e := denter f "sources" (.obj [])
  match dget e.1 "pipelines" with
  | some (.arr ps) =>
      match ps[i]? with
      | some (.obj ef) => do
          let r ← processV2Entry load e.2 ef
          pure (dset (dset e.1 "sources" r.1) "pipelines" (.arr (ps.set i (.obj r.2))))
      | _ => .error .typeError
  | _ => .error .typeError

/-- Format-version-2 resolution: `_manifest_import_v2` (lines 146-157 and
203-206).  `manifest.get("pipelines", [])` iterates nothing for an absent
key or an empty container, and is fatal otherwise when not a list (iterating
a non-empty dict or string yields strings, whose `.get` raises). -/
def runV2 (load : String → Option JVal) (f : Fields) : Except PyErr JVal := do
  let ps ← match (dget f "pipelines").getD (.arr []) with
    | .arr l => pure l
    | .obj ([] : Fields) => pure ([] : List JVal)
    | .str "" => pure []
    | .obj _ => .error .attributeError
    | .str _ => .error .attributeError
    | _ => .error .typeError
  let todos ← todoIndicesAux ps 0
  let f2 ← todos.foldlM (stepV2 load) f
  pure (.obj f2)

/-- The driver `_main_process` (lines 230-244): dispatch on `version`
(default `"1"`), resolve imports, sort the v1 url mapping — on the v2 path
`state.manifest_urls` stays `None` and `_sort_urls` leaves a falsy value
alone, so the sort is folded into `runV1` — and emit the result.  An
unsupported version is a distinct nonzero exit with no output.  Reading
`version` from a non-dict document is fatal (`.get`). -/
def runMain (load : String → Option JVal) (src : JVal) : Except PyErr JVal :=
  match src with
  | .obj f =>
    let version := (dget f "version").getD (.str "1")
    if JVal.beq version (.str "1") then runV1 load f
    else if JVal.beq version (.str "2") then runV2 load f
    else .error .unsupportedVersion
  | _ => .error .attributeError

/-! ## Claim-side definitions and concrete instances -/

/-- Modelled from the spec's description of the v2 merge (§4.2, quoted by
the claim): merging an incoming source descriptor into an existing one
per sub-key — `options` and `items` each become the union of the two
sub-maps with incoming values winning on collision, a missing sub-map is
treated as empty, all other fields of the existing descriptor are
preserved, and the descriptor is never replaced wholesale.  Used only to
compare the spec's words against the code's behaviour. -/
def specMergeDescriptor : JVal → JVal → Option JVal
  | .obj tf, .obj df =>
      let tOpts : Fields := match dget tf "options" with | some (.obj l) => l | _ => []
      let dOpts : Fields := match dget df "options" with | some (.obj l) => l | _ => []
      let tItems : Fields := match dget tf "items" with | some (.obj l) => l | _ => []
      let dItems : Fields := match dget df "items" with | some (.obj l) => l | _ => []
      some (.obj (dset (dset tf "options" (.obj (dupdate tOpts dOpts)))
        "items" (.obj (dupdate tItems dItems))))
  | _, _ => none

/-- Sub-map of a descriptor field, empty when absent or not an object. -/
def subMap (f : Fields) (k : String) : Fields :=
  match dget f k with
  | some (.obj l) => l
  | _ => []

/-- Well-formed url entry: a plain URL string, or a composite descriptor
with a string `url` field — the shapes the v1 data model admits. -/
def urlValOk (p : String × JVal) : Prop :=
  (∃ s, p.2 = .str s) ∨ ∃ d s, p.2 = .obj d ∧ dget d "url" = some (.str s)

/-- A key of a dict that, when present, holds an object. -/
def objOrAbsent (f : Fields) (k : String) : Prop :=
  ∀ v, dget f k = some v → ∃ l, v = .obj l

/-- C1 data: a referenced manifest carrying an `extra` top-level key, which
the v1 validation is supposed to reject. -/
def impC1F : Fields :=
  [("pipeline", .obj []),
   ("sources", .obj [("org.osbuild.files", .obj [("urls", .obj [])])]),
   ("extra", .bool true)]

/-- C1 data: loader resolving the referenced manifest. -/
def loadC1 : String → Option JVal :=
  fun p => if p = "imp.json" then some (.obj impC1F) else none

/-- C1 data: a v1 manifest importing `imp.json` at its root. -/
def inC1 : JVal :=
  .obj [("mpp-import-pipeline", .obj [("path", .str "imp.json")]),
        ("pipeline", .obj [("x", .num 1)]),
        ("sources", .obj [("org.osbuild.files", .obj [("urls", .obj [])])])]

/-- C1 data: the manifest the run emits despite the unexpected key. -/
def outC1 : JVal :=
  .obj [("pipeline", .obj []),
        ("sources", .obj [("org.osbuild.files", .obj [("urls", .obj [])])])]

/-- C5 data: a referenced manifest whose `sources` mapping is empty — it
does not contain the kind `org.osbuild.files` at all. -/
def impC5F : Fields := [("pipeline", .obj [("y", .num 2)]), ("sources", .obj [])]

/-- C5 data: loader resolving the referenced manifest. -/
def loadC5 : String → Option JVal :=
  fun p => if p = "imp5.json" then some (.obj impC5F) else none

/-- C5 data: a v1 manifest importing `imp5.json` at its root. -/
def inC5 : JVal :=
  .obj [("mpp-import-pipeline", .obj [("path", .str "imp5.json")]),
        ("sources", .obj [("org.osbuild.files", .obj [("urls", .obj [])])])]

/-- C5 data: the manifest the run emits although the referenced `sources`
contain no kind. -/
def outC5 : JVal :=
  .obj [("sources", .obj [("org.osbuild.files", .obj [("urls", .obj [])])]),
        ("pipeline", .obj [("y", .num 2)])]

/-- C3 data: importing manifest sources holding an existing — but empty,
hence falsy — descriptor for the kind. -/
def sfC3 : Fields := [("org.osbuild.curl", .obj [])]

/-- C3 data: an incoming descriptor with a field that is neither `options`
nor `items`. -/
def descC3 : JVal := .obj [("foo", .num 1)]

/-- C9 data: a v2 manifest whose import directive is an empty mapping — it
certainly lacks `path`. -/
def inC9 : JVal :=
  .obj [("version", .str "2"),
        ("pipelines", .arr [.obj [("name", .str "x"),
                                  ("mpp-import-pipeline", .obj [])]])]

/-- C9 data: a loader with no files at all (never consulted). -/
def loadC9 : String → Option JVal := fun _ => none

/-- C5 witness data: a referenced manifest whose `sources` contain a kind
other than `org.osbuild.files`. -/
def impW5F : Fields :=
  [("pipeline", .obj []), ("sources", .obj [("org.osbuild.foo", .obj [])])]

/-- C5 witness data: loader for the offending referenced manifest. -/
def loadW5 : String → Option JVal :=
  fun p => if p = "w5.json" then some (.obj impW5F) else none

/-- C5 witness data: a chain node holding the directive. -/
def tfW5 : Fields := [("mpp-import-pipeline", .obj [("path", .str "w5.json")])]

/-- C6 witness data: referenced manifest with a pipeline named `stage1`. -/
def impC6F : Fields :=
  [("pipelines", .arr [.obj [("name", .str "stage1"),
                             ("type", .str "org.osbuild.foo")]])]

/-- C6 witness data: loader for the referenced manifest. -/
def loadC6 : String → Option JVal :=
  fun p => if p = "b.json" then some (.obj impC6F) else none

/-- C6 witness data: an importing pipeline entry with the directive. -/
def efC6 : Fields :=
  [("name", .str "build"),
   ("mpp-import-pipeline", .obj [("path", .str "b.json"), ("id", .str "stage1")])]

/-- C7 witness data: referenced manifest whose only pipeline is named
`other`, so the id `build` cannot be found. -/
def impC7F : Fields := [("pipelines", .arr [.obj [("name", .str "other")]])]

/-- C7 witness data: loader for the referenced manifest. -/
def loadC7 : String → Option JVal :=
  fun p => if p = "c7.json" then some (.obj impC7F) else none

/-- C7 witness data: a v2 manifest requesting the missing pipeline id. -/
def inC7F : Fields :=
  [("version", .str "2"),
   ("pipelines", .arr [.obj [("mpp-import-pipeline",
      .obj [("path", .str "c7.json"), ("id", .str "build")])]])]

/-- C8 witness data: a url mapping with a plain URL string and a composite
descriptor, deliberately out of order. -/
def ufC8 : Fields :=
  [("k1", .str "https://b"),
   ("k2", .obj [("url", .str "https://a"), ("etag", .str "x")])]

/-- C2 witness data: a directive-free v1 manifest with a fully-present
sources path and unsorted urls. -/
def inC2F : Fields :=
  [("pipeline", .obj []),
   ("sources", .obj [("org.osbuild.files",
      .obj [("urls", .obj [("k1", .str "https://b"),
                           ("k2", .str "https://a")])])])]

/-- C2 witness data: the url entries of `inC2F`. -/
def ufC2 : Fields := [("k1", .str "https://b"), ("k2", .str "https://a")]

/-- C4 witness data: a v1 manifest whose shallowest directive sits at depth
1 of the build chain; the root (depth 0) has no directive. -/
def inC4F : Fields :=
  [("pipeline", .obj [("build", .obj [("mpp-import-pipeline",
        .obj [("path", .str "c4.json")]), ("note", .str "keep")]),
      ("runner", .str "org.osbuild.linux")]),
   ("sources", .obj [("org.osbuild.files",
      .obj [("urls", .obj [("k", .str "https://k")])])])]

/-- C4 witness data: root url entries of `inC4F`. -/
def ufC4 : Fields := [("k", .str "https://k")]

/-- C4 witness data: the referenced v1 manifest. -/
def impC4F : Fields :=
  [("pipeline", .obj [("stages", .arr [])]),
   ("sources", .obj [("org.osbuild.files",
      .obj [("urls", .obj [("x", .str "https://x")])])])]

/-- C4 witness data: url entries of the referenced manifest. -/
def iufC4 : Fields := [("x", .str "https://x")]

/-- C4 witness data: loader for the referenced manifest. -/
def loadC4 : String → Option JVal :=
  fun p => if p = "c4.json" then some (.obj impC4F) else none

/-! ## Basic lemmas about the dict operations -/

theorem dget_dset_self (f : Fields) (k : String) (v : JVal) :
    dget (dset f k v) k = some v := by
  induction f with
  | nil => simp [dset, dget]
  | cons p rest ih =>
    obtain ⟨k1, w⟩ := p
    by_cases h : k1 = k <;> simp [dset, dget, h, ih]

theorem dget_dset_ne (f : Fields) (k k2 : String) (v : JVal) (h : k2 ≠ k) :
    dget (dset f k v) k2 = dget f k2 := by
  have hk : ¬ (k = k2) := fun hh => h hh.symm
  induction f with
  | nil => simp [dset, dget, hk]
  | cons p rest ih =>
    obtain ⟨k1, w⟩ := p
    by_cases h1 : k1 = k
    · subst h1
      simp [dset, dget, hk]
    · by_cases h2 : k1 = k2 <;> simp [dset, dget, h, h1, h2, ih]

theorem dset_eq_of_dget (f : Fields) (k : String) (v : JVal)
    (h : dget f k = some v) : dset f k v = f := by
  induction f with
  | nil => simp [dget] at h
  | cons p rest ih =>
    obtain ⟨k1, w⟩ := p
    by_cases h1 : k1 = k
    · subst h1
      simp [dget] at h
      simp [dset, h]
    · simp [dget, h1] at h
      simp [dset, h1, ih h]

theorem dget_ddel_self (f : Fields) (k : String) : dget (ddel f k) k = none := by
  induction f with
  | nil => simp [ddel, dget]
  | cons p rest ih =>
    obtain ⟨k1, w⟩ := p
    by_cases h : k1 = k <;> simp [ddel, dget, h, ih]

theorem dget_ddel_ne (f : Fields) (k k2 : String) (h : k2 ≠ k) :
    dget (ddel f k) k2 = dget f k2 := by
  induction f with
  | nil => simp [ddel, dget]
  | cons p rest ih =>
    obtain ⟨k1, w⟩ := p
    by_cases h1 : k1 = k
    · subst h1
      have hk : ¬ (k1 = k2) := fun hh => h hh.symm
      simp [ddel, dget, hk, ih]
    · by_cases h2 : k1 = k2 <;> simp [ddel, dget, h, h1, h2, ih]

theorem dget_append_ne (f : Fields) (k k2 : String) (v : JVal) (h : k2 ≠ k) :
    dget (f ++ [(k, v)]) k2 = dget f k2 := by
  have hk : ¬ (k = k2) := fun hh => h hh.symm
  induction f with
  | nil => simp [dget, hk]
  | cons p rest ih =>
    obtain ⟨k1, w⟩ := p
    by_cases h1 : k1 = k2 <;> simp [dget, h1, ih]

theorem dget_eq_none_of_not_mem (f : Fields) (k : String)
    (h : k ∉ f.map Prod.fst) : dget f k = none := by
  induction f with
  | nil => rfl
  | cons p rest ih =>
    obtain ⟨k1, w⟩ := p
    simp only [List.map_cons, List.mem_cons, not_or] at h
    have hk : ¬ (k1 = k) := fun hh => h.1 hh.symm
    simp [dget, hk, ih h.2]

/-- On a dict whose incoming keys are duplicate-free, `dupdate` reads as:
incoming bindings win, otherwise the original binding is kept. -/
theorem dget_dupdate (inc : Fields) (f : Fields) (k : String)
    (hnd : (inc.map Prod.fst).Nodup) :
    dget (dupdate f inc) k = (dget inc k).or (dget f k) := by
  induction inc generalizing f with
  | nil => simp [dupdate, dget]
  | cons p rest ih =>
    obtain ⟨k1, w⟩ := p
    simp only [List.map_cons, List.nodup_cons] at hnd
    have step : dupdate f ((k1, w) :: rest) = dupdate (dset f k1 w) rest := rfl
    rw [step, ih _ hnd.2]
    by_cases h : k1 = k
    · subst h
      have hre : dget rest k1 = none := dget_eq_none_of_not_mem _ _ hnd.1
      simp [dget, hre, dget_dset_self]
    · have hk : k ≠ k1 := fun hh => h hh.symm
      simp [dget, h, dget_dset_ne _ _ _ _ hk]

/-! ## Size lemmas and an induction principle for the nested `JVal` type -/

theorem size_pos : ∀ v : JVal, 0 < JVal.size v := by
  intro v
  cases v <;> simp [JVal.size]

theorem size_lt_of_mem_arr {x : JVal} {l : List JVal} (h : x ∈ l) :
    JVal.size x < JVal.sizeList l := by
  induction l with
  | nil => cases h
  | cons y ys ih =>
    rcases List.mem_cons.mp h with rfl | h2
    · simp [JVal.sizeList]
      omega
    · have := ih h2
      simp [JVal.sizeList]
      omega

theorem size_lt_of_mem_fields {p : String × JVal} {f : Fields} (h : p ∈ f) :
    JVal.size p.2 < JVal.sizeFields f := by
  induction f with
  | nil => cases h
  | cons q qs ih =>
    rcases List.mem_cons.mp h with rfl | h2
    · obtain ⟨k, v⟩ := p
      simp [JVal.sizeFields]
      omega
    · have := ih h2
      obtain ⟨k, v⟩ := q
      simp [JVal.sizeFields]
      omega

theorem dget_size_lt {f : Fields} {k : String} {v : JVal}
    (h : dget f k = some v) : JVal.size v < JVal.size (.obj f) := by
  have hmem : ∃ p ∈ f, p.2 = v := by
    induction f with
    | nil => simp [dget] at h
    | cons q qs ih =>
      obtain ⟨k1, w⟩ := q
      by_cases h1 : k1 = k
      · simp [dget, h1] at h
        exact ⟨(k1, w), List.mem_cons_self _ _, h⟩
      · simp [dget, h1] at h
        obtain ⟨p, hp, he⟩ := ih h
        exact ⟨p, List.mem_cons_of_mem _ hp, he⟩
  obtain ⟨p, hp, he⟩ := hmem
  have := size_lt_of_mem_fields hp
  rw [he] at this
  simp [JVal.size]
  omega

/-- Structural induction over `JVal` through its nested lists, obtained by
strong induction on the size. -/
theorem JVal.indMem {motive : JVal → Prop}
    (hnull : motive .null)
    (hbool : ∀ b, motive (.bool b))
    (hnum : ∀ n, motive (.num n))
    (hstr : ∀ s, motive (.str s))
    (harr : ∀ l, (∀ x ∈ l, motive x) → motive (.arr l))
    (hobj : ∀ f, (∀ p ∈ f, motive (Prod.snd p)) → motive (.obj f)) :
    ∀ v, motive v := by
  have key : ∀ n v, JVal.size v ≤ n → motive v := by
    intro n
    induction n with
    | zero =>
      intro v hv
      have := size_pos v
      omega
    | succ n ih =>
      intro v hv
      cases v with
      | null => exact hnull
      | bool b => exact hbool b
      | num m => exact hnum m
      | str s => exact hstr s
      | arr l =>
        refine harr l (fun x hx => ih x ?_)
        have := size_lt_of_mem_arr hx
        simp [JVal.size] at hv
        omega
      | obj f =>
        refine hobj f (fun p hp => ih p.2 ?_)
        have := size_lt_of_mem_fields hp
        simp [JVal.size] at hv
        omega
  exact fun v => key (JVal.size v) v le_rfl

theorem beqList_iff_eq
    (l : List JVal) (ih : ∀ x ∈ l, ∀ b, JVal.beq x b = true ↔ x = b) :
    ∀ m, JVal.beqList l m = true ↔ l = m := by
  induction l with
  | nil => intro m; cases m <;> simp [JVal.beqList]
  | cons x xs ihl =>
    intro m
    cases m with
    | nil => simp [JVal.beqList]
    | cons y ys =>
      have hx := ih x (List.mem_cons_self _ _) y
      have hxs := ihl (fun z hz => ih z (List.mem_cons_of_mem _ hz)) ys
      simp [JVal.beqList, hx, hxs]

theorem beqFields_iff_eq
    (f : Fields) (ih : ∀ p ∈ f, ∀ b, JVal.beq p.2 b = true ↔ p.2 = b) :
    ∀ g, JVal.beqFields f g = true ↔ f = g := by
  induction f with
  | nil => intro g; cases g <;> simp [JVal.beqFields]
  | cons p ps ihl =>
    intro g
    cases g with
    | nil =>
      obtain ⟨k, v⟩ := p
      simp [JVal.beqFields]
    | cons q qs =>
      obtain ⟨k, v⟩ := p
      obtain ⟨k2, w⟩ := q
      have hv := ih (k, v) (List.mem_cons_self _ _) w
      have hps := ihl (fun z hz => ih z (List.mem_cons_of_mem _ hz)) qs
      simp [JVal.beqFields, hv, hps, and_assoc]

theorem beq_iff_eq : ∀ a b : JVal, JVal.beq a b = true ↔ a = b := by
  intro a
  induction a using JVal.indMem with
  | hnull => intro b; cases b <;> simp [JVal.beq]
  | hbool x => intro b; cases b <;> simp [JVal.beq]
  | hnum x => intro b; cases b <;> simp [JVal.beq]
  | hstr x => intro b; cases b <;> simp [JVal.beq]
  | harr l ih =>
    intro b
    cases b with
    | arr m => simpa [JVal.beq] using beqList_iff_eq l ih m
    | null => simp [JVal.beq]
    | bool x => simp [JVal.beq]
    | num x => simp [JVal.beq]
    | str x => simp [JVal.beq]
    | obj g => simp [JVal.beq]
  | hobj f ih =>
    intro b
    cases b with
    | obj g => simpa [JVal.beq] using beqFields_iff_eq f ih g
    | null => simp [JVal.beq]
    | bool x => simp [JVal.beq]
    | num x => simp [JVal.beq]
    | str x => simp [JVal.beq]
    | arr m => simp [JVal.beq]

instance : DecidableEq JVal := fun a b => decidable_of_iff _ (beq_iff_eq a b)

/-! ## Characterization of the v2 per-kind source merge -/

theorem subMap_congr {a b : Fields} {k : String} (h : dget a k = dget b k) :
    subMap a k = subMap b k := by
  simp [subMap, h]

theorem mergeOptionsStep_spec (tf df : Fields)
    (hto : objOrAbsent tf "options") (hdo : objOrAbsent df "options") :
    ∃ tf1, mergeOptionsStep tf df = .ok tf1 ∧
      (∀ kk, kk ≠ "options" → dget tf1 kk = dget tf kk) ∧
      (truthy ((dget df "options").getD .null) = true →
          dget tf1 "options" =
            some (.obj (dupdate (subMap tf "options") (subMap df "options")))) ∧
      (truthy ((dget df "options").getD .null) = false →
          dget tf1 "options" = dget tf "options") := by
  rcases hdov : dget df "options" with _ | ov
  · refine ⟨tf, ?_, fun kk _ => rfl, ?_, fun _ => rfl⟩
    · simp [mergeOptionsStep, truthy, hdov]
    · intro hc
      simp [hdov, truthy] at hc
  · obtain ⟨ovl, rfl⟩ := hdo _ hdov
    by_cases hove : ovl = []
    · subst hove
      refine ⟨tf, ?_, fun kk _ => rfl, ?_, fun _ => rfl⟩
      · simp [mergeOptionsStep, truthy, hdov]
      · intro hc
        simp [hdov, truthy] at hc
    · have htv : truthy ((dget df "options").getD .null) = true := by
        simp [hdov, truthy, hove]
      rcases htov : dget tf "options" with _ | tov
      · refine ⟨dset (tf ++ [("options", .obj [])]) "options" (.obj (dupdate [] ovl)),
          ?_, ?_, ?_, ?_⟩
        · simp [mergeOptionsStep, denter, htov, hdov, truthy, hove]
        · intro kk hk
          rw [dget_dset_ne _ _ _ _ hk, dget_append_ne _ _ _ _ hk]
        · intro _
          rw [dget_dset_self]
          simp [subMap, htov, hdov]
        · intro hc
          simp [hdov, truthy, hove] at hc
      · obtain ⟨tol, rfl⟩ := hto _ htov
        refine ⟨dset tf "options" (.obj (dupdate tol ovl)), ?_, ?_, ?_, ?_⟩
        · simp [mergeOptionsStep, denter, htov, hdov, truthy, hove]
        · intro kk hk
          rw [dget_dset_ne _ _ _ _ hk]
        · intro _
          rw [dget_dset_self]
          simp [subMap, htov, hdov]
        · intro hc
          simp [hdov, truthy, hove] at hc

theorem mergeItemsStep_spec (tf1 df : Fields)
    (hti : objOrAbsent tf1 "items") (hdi : objOrAbsent df "items") :
    ∃ rf, mergeItemsStep tf1 df = .ok (.obj rf) ∧
      (∀ kk, kk ≠ "items" → dget rf kk = dget tf1 kk) ∧
      dget rf "items" = some (.obj (dupdate (subMap tf1 "items") (subMap df "items"))) := by
  have hdif : ∃ dif, (dget df "items").getD (.obj []) = .obj dif ∧
      subMap df "items" = dif := by
    rcases hdiv : dget df "items" with _ | dv
    · exact ⟨[], rfl, by simp [subMap, hdiv]⟩
    · obtain ⟨dil, rfl⟩ := hdi _ hdiv
      exact ⟨dil, rfl, by simp [subMap, hdiv]⟩
  obtain ⟨dif, hdif1, hdif2⟩ := hdif
  rcases htiv : dget tf1 "items" with _ | tv
  · refine ⟨dset (tf1 ++ [("items", .obj [])]) "items" (.obj (dupdate [] dif)),
      ?_, ?_, ?_⟩
    · simp [mergeItemsStep, denter, htiv, hdif1]
    · intro kk hk
      rw [dget_dset_ne _ _ _ _ hk, dget_append_ne _ _ _ _ hk]
    · rw [dget_dset_self, hdif2]
      simp [subMap, htiv]
  · obtain ⟨til, rfl⟩ := hti _ htiv
    refine ⟨dset tf1 "items" (.obj (dupdate til dif)), ?_, ?_, ?_⟩
    · simp [mergeItemsStep, denter, htiv, hdif1]
    · intro kk hk
      rw [dget_dset_ne _ _ _ _ hk]
    · rw [dget_dset_self, hdif2]
      simp [subMap, htiv]

/-- Full characterization of the v2 per-kind merge into a truthy existing
descriptor: other fields preserved, `items` always present afterwards and
merged per sub-key, `options` merged per sub-key exactly when the incoming
descriptor's `options` are truthy. -/
theorem mergeOneSource_truthy_spec (tf df : Fields)
    (htr : truthy (.obj tf) = true)
    (hto : objOrAbsent tf "options") (hti : objOrAbsent tf "items")
    (hdo : objOrAbsent df "options") (hdi : objOrAbsent df "items") :
    ∃ rf, mergeOneSource (some (.obj tf)) (.obj df) = .ok (.obj rf) ∧
      (∀ kk, kk ≠ "options" → kk ≠ "items" → dget rf kk = dget tf kk) ∧
      dget rf "items" = some (.obj (dupdate (subMap tf "items") (subMap df "items"))) ∧
      (truthy ((dget df "options").getD .null) = true →
          dget rf "options" =
            some (.obj (dupdate (subMap tf "options") (subMap df "options")))) ∧
      (truthy ((dget df "options").getD .null) = false →
          dget rf "options" = dget tf "options") := by
  obtain ⟨tf1, h1, hfr, hot, hof⟩ := mergeOptionsStep_spec tf df hto hdo
  have hti1 : objOrAbsent tf1 "items" := by
    intro v hv
    rw [hfr "items" (by decide)] at hv
    exact hti v hv
  obtain ⟨rf, h2, hfr2, hit⟩ := mergeItemsStep_spec tf1 df hti1 hdi
  have hitems_eq : dget tf1 "items" = dget tf "items" := hfr "items" (by decide)
  refine ⟨rf, ?_, ?_, ?_, ?_, ?_⟩
  · simp [mergeOneSource, htr, bind, Except.bind, h1, h2]
  · intro kk hk1 hk2
    rw [hfr2 kk hk2, hfr kk hk1]
  · rw [hit, subMap_congr hitems_eq]
  · intro hc
    rw [hfr2 "options" (by decide), hot hc]
  · intro hc
    rw [hfr2 "options" (by decide), hof hc]

theorem objOrAbsent_of_none {f : Fields} {k : String} (h : dget f k = none) :
    objOrAbsent f k := by
  intro v hv
  rw [h] at hv
  exact Option.noConfusion hv

theorem objOrAbsent_of_obj {f : Fields} {k : String} {l : Fields}
    (h : dget f k = some (.obj l)) : objOrAbsent f k := by
  intro v hv
  rw [h] at hv
  exact ⟨l, (Option.some.inj hv).symm⟩

theorem dget_denter_ne (f : Fields) (k k2 : String) (d : JVal) (h : k2 ≠ k) :
    dget (denter f k d).1 k2 = dget f k2 := by
  unfold denter
  rcases hg : dget f k with _ | v
  · simp [dget_append_ne _ _ _ _ h]
  · rfl

theorem findPipeline_none (s : String) : ∀ ps : List JVal,
    (∀ p ∈ ps, ∃ pf nm, p = .obj pf ∧ dget pf "name" = some (.str nm) ∧ nm ≠ s) →
    findPipeline ps (.str s) = .ok none := by
  intro ps
  induction ps with
  | nil => intro _; rfl
  | cons p rest ih =>
    intro h
    obtain ⟨pf, nm, rfl, hget, hne⟩ := h p (List.mem_cons_self _ _)
    have hbeq : JVal.beq (.str nm) (.str s) = false := by
      simp [JVal.beq]
      exact hne
    simp [findPipeline, hget, hbeq]
    exact ih (fun q hq => h q (List.mem_cons_of_mem _ hq))

/-! ## Order properties of the url sort -/

theorem strLeAux_total : ∀ as bs : List Char,
    strLeAux as bs = true ∨ strLeAux bs as = true := by
  intro as
  induction as with
  | nil => intro bs; exact Or.inl rfl
  | cons a as ih =>
    intro bs
    cases bs with
    | nil => exact Or.inr rfl
    | cons b bs =>
      by_cases h1 : a.toNat < b.toNat
      · left
        simp [strLeAux, h1]
      · by_cases h2 : b.toNat < a.toNat
        · right
          simp [strLeAux, h1, h2]
        · rcases ih bs with h | h
          · left
            simp [strLeAux, h1, h2, h]
          · right
            simp [strLeAux, h1, h2, h]

theorem strLeAux_trans : ∀ as bs cs : List Char,
    strLeAux as bs = true → strLeAux bs cs = true → strLeAux as cs = true := by
  intro as
  induction as with
  | nil => intro bs cs _ _; rfl
  | cons a as ih =>
    intro bs cs h1 h2
    cases bs with
    | nil => simp [strLeAux] at h1
    | cons b bs =>
      cases cs with
      | nil => simp [strLeAux] at h2
      | cons c cs =>
        by_cases hab : a.toNat < b.toNat
        · by_cases hbc : b.toNat < c.toNat
          · have hac : a.toNat < c.toNat := by omega
            simp [strLeAux, hac]
          · by_cases hcb : c.toNat < b.toNat
            · simp [strLeAux, hbc, hcb] at h2
            · have hac : a.toNat < c.toNat := by omega
              simp [strLeAux, hac]
        · by_cases hba : b.toNat < a.toNat
          · simp [strLeAux, hab, hba] at h1
          · by_cases hbc : b.toNat < c.toNat
            · have hac : a.toNat < c.toNat := by omega
              simp [strLeAux, hac]
            · by_cases hcb : c.toNat < b.toNat
              · simp [strLeAux, hbc, hcb] at h2
              · have h1x : strLeAux as bs = true := by
                  simpa [strLeAux, hab, hba] using h1
                have h2x : strLeAux bs cs = true := by
                  simpa [strLeAux, hbc, hcb] using h2
                have hac1 : ¬ a.toNat < c.toNat := by omega
                have hac2 : ¬ c.toNat < a.toNat := by omega
                simp [strLeAux, hac1, hac2]
                exact ih bs cs h1x h2x

instance : IsTotal (String × JVal) urlLe :=
  ⟨fun a b => strLeAux_total (urlKeyStr a).data (urlKeyStr b).data⟩

instance : IsTrans (String × JVal) urlLe :=
  ⟨fun a b c => strLeAux_trans (urlKeyStr a).data (urlKeyStr b).data (urlKeyStr c).data⟩

theorem mapM_urlSortKey_ok : ∀ uf : Fields, (∀ p ∈ uf, urlValOk p) →
    ∃ ks, uf.mapM urlSortKey = (.ok ks : Except PyErr (List JVal)) ∧
      ∀ x ∈ ks, ∃ s, x = JVal.str s := by
  intro uf
  induction uf with
  | nil => intro _; exact ⟨[], rfl, by simp⟩
  | cons p rest ih =>
    intro h
    obtain ⟨ks, hks, hall⟩ := ih (fun q hq => h q (List.mem_cons_of_mem _ hq))
    have hp := h p (List.mem_cons_self _ _)
    have hkey : ∃ s, urlSortKey p = .ok (.str s) := by
      rcases hp with ⟨s, hs⟩ | ⟨d, s, hd, hu⟩
      · exact ⟨s, by simp [urlSortKey, hs]⟩
      · exact ⟨s, by simp [urlSortKey, hd, hu]⟩
    obtain ⟨s, hs⟩ := hkey
    have hks2 : List.mapM.loop urlSortKey rest [] = Except.ok ks := by
      simpa [List.mapM] using hks
    refine ⟨.str s :: ks, ?_, ?_⟩
    · rw [List.mapM_cons]
      simp [hs, hks2, bind, Except.bind, pure, Except.pure]
    · intro x hx
      rcases List.mem_cons.mp hx with rfl | hx2
      · exact ⟨s, rfl⟩
      · exact hall x hx2

/-- On a url mapping whose values are well-formed, `_sort_urls` succeeds and
returns a permutation of the entries sorted ascending by URL key. -/
theorem sortUrls_ok (uf : Fields) (h : ∀ p ∈ uf, urlValOk p) :
    ∃ uf2, sortUrls (.obj uf) = .ok (.obj uf2) ∧ uf2.Perm uf ∧
      List.Sorted urlLe uf2 := by
  cases uf with
  | nil => exact ⟨[], rfl, List.Perm.refl _, List.sorted_nil⟩
  | cons p rest =>
    obtain ⟨ks, hks, hall⟩ := mapM_urlSortKey_ok _ h
    have hks2 : List.mapM.loop urlSortKey (p :: rest) [] = Except.ok ks := by
      simpa [List.mapM] using hks
    have hallp : ∀ x ∈ ks, (match x with | JVal.str _ => true | _ => false) = true := by
      intro x hx
      obtain ⟨s, rfl⟩ := hall x hx
      rfl
    cases rest with
    | nil =>
      refine ⟨[p], ?_, List.Perm.refl _, List.sorted_singleton _⟩
      simp [sortUrls, truthy, hks2, bind, Except.bind, pure, Except.pure]
    | cons q rest2 =>
      have hlen : ¬ ((p :: q :: rest2 : Fields).length ≤ 1) := by
        simp
      refine ⟨List.insertionSort urlLe (p :: q :: rest2), ?_,
        List.perm_insertionSort _ _, List.sorted_insertionSort _ _⟩
      simp [sortUrls, truthy, hks2, hlen, bind, Except.bind, pure, Except.pure]
      exact hallp

/-! ## Chain walk and defaulting characterization -/

theorem nodeAt_zero (v : JVal) : nodeAt v 0 = some v := by
  cases v <;> rfl

theorem nodeAt_congr {f g : Fields} (h : dget f "pipeline" = dget g "pipeline")
    (k : Nat) : nodeAt (.obj f) (k + 1) = nodeAt (.obj g) (k + 1) := by
  simp [nodeAt, h]

theorem walkAux_eq_none : ∀ (fuel : Nat) (v : JVal), JVal.size v ≤ fuel →
    (∀ k n, nodeAt v k = some n → truthy n = true →
      ∃ nf, n = .obj nf ∧ dget nf "mpp-import-pipeline" = none ∧
        (∀ p, dget nf "pipeline" = some p → ∃ pfl, p = .obj pfl)) →
    walkAux fuel v = .ok none := by
  intro fuel
  induction fuel with
  | zero =>
    intro v hs H
    have := size_pos v
    omega
  | succ n ih =>
    intro v hs H
    by_cases htr : truthy v = false
    · simp [walkAux, htr]
    · have htr2 : truthy v = true := by
        revert htr
        cases truthy v <;> simp
      obtain ⟨nf, rfl, hmpp, hpl⟩ := H 0 v (nodeAt_zero v) htr2
      rcases hp : dget nf "pipeline" with _ | p
      · simp [walkAux, htr2, hmpp, hp]
      · obtain ⟨pfl, rfl⟩ := hpl p hp
        rcases hb : dget pfl "build" with _ | b
        · simp [walkAux, htr2, hmpp, hp, hb]
        · have hrec : walkAux n b = .ok none := by
            apply ih
            · have h1 := dget_size_lt hp
              have h2 := dget_size_lt hb
              omega
            · intro k m hm htm
              apply H (k + 1) m _ htm
              simp [nodeAt, hp, hb]
              exact hm
          simp [walkAux, htr2, hmpp, hp, hb, hrec, Except.map, Option.map]

theorem enterSourcesUrls_cases (f uf : Fields)
    (HS : (dget f "sources" = none ∧ uf = []) ∨
      ∃ sf, dget f "sources" = some (.obj sf) ∧
        ((dget sf "org.osbuild.files" = none ∧ uf = []) ∨
         ∃ ff, dget sf "org.osbuild.files" = some (.obj ff) ∧
           ((dget ff "urls" = none ∧ uf = []) ∨
            dget ff "urls" = some (.obj uf)))) :
    ∃ f2, enterSourcesUrls f = .ok (f2, .obj uf) ∧
      (∀ k, k ≠ "sources" → dget f2 k = dget f k) ∧
      ((∃ sf ff u0, dget f "sources" = some (.obj sf) ∧
          dget sf "org.osbuild.files" = some (.obj ff) ∧
          dget ff "urls" = some u0) → f2 = f) := by
  rcases HS with ⟨hA, rfl⟩ | ⟨sf, hsf, HS2⟩
  · refine ⟨dset (f ++ [("sources", JVal.obj [])]) "sources"
      (.obj [("org.osbuild.files", .obj [("urls", .obj [])])]), ?_, ?_, ?_⟩
    · simp [enterSourcesUrls, denter, hA, dget, dset]
    · intro k hk
      rw [dget_dset_ne _ _ _ _ hk, dget_append_ne _ _ _ _ hk]
    · rintro ⟨sf, ff, u0, hs, _, _⟩
      rw [hA] at hs
      exact Option.noConfusion hs
  · rcases HS2 with ⟨hB, rfl⟩ | ⟨ff, hff, HS3⟩
    · refine ⟨dset f "sources" (.obj (dset (sf ++ [("org.osbuild.files", JVal.obj [])])
        "org.osbuild.files" (.obj [("urls", .obj [])]))), ?_, ?_, ?_⟩
      · simp [enterSourcesUrls, denter, hsf, hB, dget, dset]
      · intro k hk
        rw [dget_dset_ne _ _ _ _ hk]
      · rintro ⟨sf2, ff2, u0, hs, hf2, _⟩
        rw [hsf] at hs
        cases hs
        rw [hB] at hf2
        exact Option.noConfusion hf2
    · rcases HS3 with ⟨hC, rfl⟩ | hu
      · refine ⟨dset f "sources" (.obj (dset sf "org.osbuild.files"
          (.obj (ff ++ [("urls", JVal.obj [])])))), ?_, ?_, ?_⟩
        · simp [enterSourcesUrls, denter, hsf, hff, hC, dget, dset]
        · intro k hk
          rw [dget_dset_ne _ _ _ _ hk]
        · rintro ⟨sf2, ff2, u0, hs, hf2, hu0⟩
          rw [hsf] at hs
          cases hs
          rw [hff] at hf2
          cases hf2
          rw [hC] at hu0
          exact Option.noConfusion hu0
      · refine ⟨f, ?_, fun k _ => rfl, fun _ => rfl⟩
        simp [enterSourcesUrls, denter, hsf, hff, hu,
          dset_eq_of_dget _ _ _ hff, dset_eq_of_dget _ _ _ hsf]

/-! ## Directive-at-depth characterization -/

theorem nodeAt_succ_inv {v : JVal} {d : Nat} {x : JVal}
    (h : nodeAt v (d + 1) = some x) :
    ∃ f pf b, v = .obj f ∧ dget f "pipeline" = some (.obj pf) ∧
      dget pf "build" = some b ∧ nodeAt b d = some x := by
  cases v with
  | obj f =>
    rcases hp : dget f "pipeline" with _ | p
    · simp [nodeAt, hp] at h
    · cases p with
      | obj pf =>
        rcases hb : dget pf "build" with _ | b
        · simp [nodeAt, hp, hb] at h
        · refine ⟨f, pf, b, rfl, hp, hb, ?_⟩
          simpa [nodeAt, hp, hb] using h
      | null => simp [nodeAt, hp] at h
      | bool y => simp [nodeAt, hp] at h
      | num y => simp [nodeAt, hp] at h
      | str y => simp [nodeAt, hp] at h
      | arr y => simp [nodeAt, hp] at h
  | null => simp [nodeAt] at h
  | bool y => simp [nodeAt] at h
  | num y => simp [nodeAt] at h
  | str y => simp [nodeAt] at h
  | arr y => simp [nodeAt] at h

theorem walkAux_eq_some : ∀ (d : Nat) (fuel : Nat) (v : JVal) (nd : Fields),
    JVal.size v ≤ fuel →
    (∀ k nf, k < d → nodeAt v k = some (.obj nf) →
      dget nf "mpp-import-pipeline" = none) →
    nodeAt v d = some (.obj nd) →
    (dget nd "mpp-import-pipeline").isSome = true →
    walkAux fuel v = .ok (some d) := by
  intro d
  induction d with
  | zero =>
    intro fuel v nd hs _ Hd Hm
    rw [nodeAt_zero] at Hd
    cases Hd
    cases fuel with
    | zero =>
      have := size_pos (JVal.obj nd)
      omega
    | succ n =>
      have hne : nd ≠ [] := by
        intro h
        subst h
        simp [dget] at Hm
      have htr : truthy (.obj nd) = true := by
        simp [truthy]
        exact hne
      simp [walkAux, htr, Hm]
  | succ d ih =>
    intro fuel v nd hs Hsh Hd Hm
    obtain ⟨f, pf, b, rfl, hp, hb, hrec⟩ := nodeAt_succ_inv Hd
    cases fuel with
    | zero =>
      have := size_pos (JVal.obj f)
      omega
    | succ n =>
      have hmpp0 : dget f "mpp-import-pipeline" = none :=
        Hsh 0 f (Nat.succ_pos d) (nodeAt_zero _)
      have hfne : f ≠ [] := by
        intro h
        subst h
        simp [dget] at hp
      have htr : truthy (.obj f) = true := by
        simp [truthy]
        exact hfne
      have hrecw : walkAux n b = .ok (some d) := by
        apply ih n b nd _ _ hrec Hm
        · have h1 := dget_size_lt hp
          have h2 := dget_size_lt hb
          omega
        · intro k nf hk hkn
          refine Hsh (k + 1) nf (by omega) ?_
          simp [nodeAt, hp, hb]
          exact hkn
      simp [walkAux, htr, hmpp0, hp, hb, hrecw, Except.map, Option.map]

theorem updateAtDepth_spec (g : Fields → Except PyErr (Fields × JVal)) :
    ∀ (d : Nat) (v : JVal) (nd nd' : Fields) (x : JVal),
    nodeAt v d = some (.obj nd) → g nd = .ok (nd', x) →
    ∃ f3, updateAtDepth v d g = .ok (.obj f3, x) ∧
      nodeAt (.obj f3) d = some (.obj nd') ∧
      (∀ k nf, k < d → nodeAt v k = some (.obj nf) →
        ∃ pf b', dget nf "pipeline" = some (.obj pf) ∧
          nodeAt (.obj f3) k =
            some (.obj (dset nf "pipeline" (.obj (dset pf "build" b'))))) := by
  intro d
  induction d with
  | zero =>
    intro v nd nd' x Hd hg
    rw [nodeAt_zero] at Hd
    cases Hd
    refine ⟨nd', ?_, nodeAt_zero _, ?_⟩
    · simp [updateAtDepth, hg, Except.map]
    · intro k nf hk
      omega
  | succ d ih =>
    intro v nd nd' x Hd hg
    obtain ⟨f, pf, b, rfl, hp, hb, hrec⟩ := nodeAt_succ_inv Hd
    obtain ⟨b3, hupd, hnode, hframe⟩ := ih b nd nd' x hrec hg
    refine ⟨dset f "pipeline" (.obj (dset pf "build" (.obj b3))), ?_, ?_, ?_⟩
    · simp [updateAtDepth, hp, hb, hupd, Except.map]
    · have h1 : dget (dset f "pipeline" (.obj (dset pf "build" (.obj b3))))
          "pipeline" = some (.obj (dset pf "build" (.obj b3))) := dget_dset_self _ _ _
      have h2 : dget (dset pf "build" (.obj b3)) "build" = some (.obj b3) :=
        dget_dset_self _ _ _
      simp [nodeAt, h1, h2]
      exact hnode
    · intro k nf hk hkn
      cases k with
      | zero =>
        rw [nodeAt_zero] at hkn
        cases hkn
        exact ⟨pf, .obj b3, hp, nodeAt_zero _⟩
      | succ j =>
        have hkn2 : nodeAt b j = some (.obj nf) := by
          simpa [nodeAt, hp, hb] using hkn
        obtain ⟨pf2, b2, hpf2, hb2⟩ := hframe j nf (by omega) hkn2
        refine ⟨pf2, b2, hpf2, ?_⟩
        have h1 : dget (dset f "pipeline" (.obj (dset pf "build" (.obj b3))))
            "pipeline" = some (.obj (dset pf "build" (.obj b3))) := dget_dset_self _ _ _
        have h2 : dget (dset pf "build" (.obj b3)) "build" = some (.obj b3) :=
          dget_dset_self _ _ _
        simp [nodeAt, h1, h2]
        exact hb2

theorem processV1Node_ok
    (load : String → Option JVal) (tf mf : Fields) (path : String)
    (impF g : Fields) (uvv : JVal)
    (hm : dget tf "mpp-import-pipeline" = some (.obj mf))
    (hp : dget mf "path" = some (.str path))
    (hl : load path = some (.obj impF))
    (hs : dget impF "sources" = some (.obj [("org.osbuild.files", .obj g)]))
    (hu : dget g "urls" = some uvv) :
    processV1Node load tf =
      .ok (ddel (dset tf "pipeline" ((dget impF "pipeline").getD (.obj [])))
        "mpp-import-pipeline", uvv) := by
  rcases hpi : dget impF "pipeline" with _ | pv <;>
    simp [processV1Node, denter, hm, hp, hl, hs, hu, hpi, pySortResult, dget, dset,
      dset_eq_of_dget _ _ _ hs]

theorem dget_setUrlsAtRoot_ne (f : Fields) (u : JVal) (kk : String)
    (h : kk ≠ "sources") : dget (setUrlsAtRoot f u) kk = dget f kk := by
  unfold setUrlsAtRoot
  split
  · split
    · exact dget_dset_ne _ _ _ _ h
    · rfl
  · rfl

theorem mem_dset {p : String × JVal} : ∀ (f : Fields) (k : String) (v : JVal),
    p ∈ dset f k v → p ∈ f ∨ p = (k, v) := by
  intro f
  induction f with
  | nil =>
    intro k v h
    simp [dset] at h
    exact Or.inr h
  | cons q rest ih =>
    intro k v h
    obtain ⟨k1, w⟩ := q
    by_cases h1 : k1 = k
    · subst h1
      simp [dset] at h
      rcases h with rfl | h
      · exact Or.inr rfl
      · exact Or.inl (List.mem_cons_of_mem _ h)
    · simp [dset, h1] at h
      rcases h with rfl | h
      · exact Or.inl (List.mem_cons_self _ _)
      · rcases ih k v h with h2 | h2
        · exact Or.inl (List.mem_cons_of_mem _ h2)
        · exact Or.inr h2

theorem mem_dupdate {p : String × JVal} : ∀ (b a : Fields),
    p ∈ dupdate a b → p ∈ a ∨ p ∈ b := by
  intro b
  induction b with
  | nil =>
    intro a h
    exact Or.inl h
  | cons q rest ih =>
    intro a h
    have step : dupdate a (q :: rest) = dupdate (dset a q.1 q.2) rest := rfl
    rw [step] at h
    rcases ih _ h with h2 | h2
    · rcases mem_dset _ _ _ h2 with h3 | h3
      · exact Or.inl h3
      · right
        rw [h3]
        exact List.mem_cons_self _ _
    · exact Or.inr (List.mem_cons_of_mem _ h2)

end Mpp

namespace Mpp

/-! ## Claim theorems -/

/-- C1: the claim says a v1 import whose referenced manifest's top-level key
set is not exactly `{pipeline, sources}` fails hard.  The code's own comment
(lines 124-126) states that intent, but the check at line 127 compares the
`None` results of two in-place `list.sort()` calls and therefore always
passes: a referenced manifest with an `extra` top-level key — whose key list
is not a permutation of `["pipeline", "sources"]` — is imported without any
failure and the run emits output.  This is a bug in the code, not in the
claim. -/
theorem c1_top_level_key_check_is_noop :
    ¬ (impC1F.map Prod.fst).Perm ["pipeline", "sources"] ∧
    pySortResult (impC1F.map Prod.fst) = pySortResult ["pipeline", "sources"] ∧
    runMain loadC1 inC1 = .ok outC1 := by
  refine ⟨by decide, rfl, by rfl⟩

/-- C5 counterexample: the claim says a referenced manifest whose `sources`
do not contain *exactly* the single kind `org.osbuild.files` — in
particular, not exactly one kind — is rejected.  But the v1 parse
get-or-creates `org.osbuild.files` in the imported `sources` before the
assertion (lines 113-114), so a referenced manifest with an *empty*
`sources` mapping (zero kinds) passes the check and the run succeeds. -/
theorem c5_counterexample_empty_sources_accepted :
    dget impC5F "sources" = some (.obj []) ∧
    runMain loadC5 inC5 = .ok outC5 := by
  refine ⟨rfl, by rfl⟩

/-- C3 counterexample: the claim says that whenever the importing manifest
*has* an entry for an incoming source kind, that descriptor is never
replaced wholesale but merged per sub-key.  The code tests Python
truthiness, not presence (line 173): with an existing but *empty*
descriptor for `org.osbuild.curl`, the incoming descriptor replaces it
wholesale — the result keeps the incoming `foo` field, which no per-sub-key
merge of `options`/`items` (modelled by `specMergeDescriptor`) produces. -/
theorem c3_counterexample_falsy_descriptor_replaced :
    dget sfC3 "org.osbuild.curl" = some (.obj []) ∧
    mergeOneSource (dget sfC3 "org.osbuild.curl") descC3 = .ok descC3 ∧
    specMergeDescriptor (.obj []) descC3 ≠ some descC3 := by
  refine ⟨rfl, rfl, by decide⟩

/-- C9 counterexample: the claim says an import directive lacking `path`
is fatal in either version.  In v2 the parse collects only entries whose
directive value is *truthy* (line 153), so a directive that is an empty
mapping — which certainly lacks `path` — is silently skipped: the run
succeeds, emits output, and even leaves the directive in place. -/
theorem c9_counterexample_empty_v2_directive_skipped :
    runMain loadC9 inC9 = .ok inC9 := by
  rfl

/-- C9 amended: a v1 directive lacking `path` is fatal (`KeyError`); a
*truthy* v2 directive lacking `path` is fatal; a v2 directive lacking `id`
is fatal (it can never succeed — the error is `KeyError("id")` when reached,
or an earlier fatal error from the same import); but a *falsy* v2 directive
value (such as an empty mapping) is skipped by the parse entirely, so an
empty v2 directive lacking `path` is not fatal. -/
theorem c9_missing_fields_fatal_amended :
    (∀ (load : String → Option JVal) (tf mf : Fields),
        dget tf "mpp-import-pipeline" = some (.obj mf) →
        dget mf "path" = none →
        processV1Node load tf = .error (.keyError "path")) ∧
    (∀ (load : String → Option JVal) (sv : JVal) (ef mf : Fields),
        dget ef "mpp-import-pipeline" = some (.obj mf) →
        dget mf "path" = none →
        processV2Entry load sv ef = .error (.keyError "path")) ∧
    (∀ (load : String → Option JVal) (sv : JVal) (ef mf : Fields),
        dget ef "mpp-import-pipeline" = some (.obj mf) →
        dget mf "id" = none →
        ∃ e, processV2Entry load sv ef = .error e) ∧
    (∀ (pf : Fields) (rest : List JVal) (i : Nat),
        truthy ((dget pf "mpp-import-pipeline").getD .null) = false →
        todoIndicesAux (.obj pf :: rest) i = todoIndicesAux rest (i + 1)) := by
  refine ⟨?_, ?_, ?_, ?_⟩
  · intro load tf mf h1 h2
    simp [processV1Node, denter, h1, h2]
  · intro load sv ef mf h1 h2
    simp [processV2Entry, h1, h2]
  · intro load sv ef mf h1 h2
    rcases hres : processV2Entry load sv ef with e | r
    · exact ⟨e, rfl⟩
    · exfalso
      rw [processV2Entry] at hres
      rw [h1] at hres
      repeat'
        first
        | exact Except.noConfusion hres
        | (simp only [bind, Except.bind, pure, Except.pure] at hres)
        | split at hres
      all_goals simp_all
  · intro pf rest i h
    simp [todoIndicesAux, h]

/-- C5 amended: the v1 import fails its sources validation exactly when the
referenced manifest's `sources` mapping contains a kind *other than*
`org.osbuild.files`: since the parse get-or-creates `org.osbuild.files`
before the assertion, a missing or empty `sources` mapping — or one holding
only `org.osbuild.files` — is accepted, and any additional kind is a fatal
`AssertionError`. -/
theorem c5_sources_validation_amended
    (load : String → Option JVal) (tf mf : Fields) (path : String)
    (impF isf : Fields)
    (h1 : dget tf "mpp-import-pipeline" = some (.obj mf))
    (h2 : dget mf "path" = some (.str path))
    (h3 : load path = some (.obj impF))
    (h4 : dget impF "sources" = some (.obj isf) ∨
          (dget impF "sources" = none ∧ isf = []))
    (h5 : dget isf "org.osbuild.files" = none ∨
          ∃ g, dget isf "org.osbuild.files" = some (.obj g)) :
    (processV1Node load tf = .error .assertionError ↔
        ¬ (isf.map Prod.fst = [] ∨ isf.map Prod.fst = ["org.osbuild.files"])) ∧
    ((isf.map Prod.fst = [] ∨ isf.map Prod.fst = ["org.osbuild.files"]) →
        ∃ r, processV1Node load tf = .ok r) := by
  rcases h4 with h4 | ⟨h4, rfl⟩
  · rcases h5 with h5 | ⟨g, h5⟩
    · have hne : isf.map Prod.fst ≠ ["org.osbuild.files"] := by
        intro hmap
        cases isf with
        | nil => simp at hmap
        | cons p rest =>
          cases rest with
          | nil =>
            obtain ⟨k, v⟩ := p
            simp at hmap
            rw [hmap] at h5
            simp [dget] at h5
          | cons q qrest => simp at hmap
      have hcond : ((isf ++ [("org.osbuild.files", JVal.obj [])]).map Prod.fst =
          ["org.osbuild.files"]) ↔ isf.map Prod.fst = [] := by
        constructor
        · intro hc
          have hl := congrArg List.length hc
          simp at hl
          simp [hl]
        · intro hc
          have hz : isf = [] := by
            cases isf with
            | nil => rfl
            | cons p r => simp at hc
          simp [hz]
      by_cases hc : isf.map Prod.fst = []
      · constructor
        · simp [processV1Node, denter, dget, h1, h2, h3, h4, h5, pySortResult, hcond, hc, hne]
        · intro _
          simp [processV1Node, denter, dget, h1, h2, h3, h4, h5, pySortResult, hcond, hc]
      · constructor
        · simp [processV1Node, denter, dget, h1, h2, h3, h4, h5, pySortResult, hcond, hc, hne]
        · intro hD
          rcases hD with hD | hD
          · exact absurd hD hc
          · exact absurd hD hne
    · have hnonempty : isf.map Prod.fst ≠ [] := by
        intro hmap
        cases isf with
        | nil => simp [dget] at h5
        | cons p rest => simp at hmap
      by_cases hc : isf.map Prod.fst = ["org.osbuild.files"]
      · constructor
        · simp [processV1Node, denter, dget, h1, h2, h3, h4, h5, pySortResult, hc, hnonempty]
        · intro _
          simp [processV1Node, denter, dget, h1, h2, h3, h4, h5, pySortResult, hc]
      · constructor
        · simp [processV1Node, denter, dget, h1, h2, h3, h4, h5, pySortResult, hc, hnonempty]
        · intro hD
          rcases hD with hD | hD
          · exact absurd hD hnonempty
          · exact absurd hD hc
  · constructor
    · simp [processV1Node, denter, dget, h1, h2, h3, h4, pySortResult]
    · intro _
      simp [processV1Node, denter, dget, h1, h2, h3, h4, pySortResult]

/-- C3 amended: the v2 merge copies the incoming descriptor wholesale
exactly when the existing entry is absent *or falsy* (Python truthiness,
e.g. an empty descriptor); a *truthy* existing descriptor is never replaced
wholesale — its fields other than `options`/`items` are preserved, `items`
is merged per sub-key (always materialised), `options` is merged per sub-key
when the incoming `options` are truthy; per-sub-key merging means incoming
values win on collision and disjoint keys union. -/
theorem c3_v2_merge_amended :
    (∀ (sf : Fields) (k : String) (desc : JVal),
        (dget sf k = none ∨ ∃ t, dget sf k = some t ∧ truthy t = false) →
        mergeOneSource (dget sf k) desc = .ok desc) ∧
    (∀ (tf df : Fields), truthy (.obj tf) = true →
        objOrAbsent tf "options" → objOrAbsent tf "items" →
        objOrAbsent df "options" → objOrAbsent df "items" →
        ∃ rf, mergeOneSource (some (.obj tf)) (.obj df) = .ok (.obj rf) ∧
          (∀ kk, kk ≠ "options" → kk ≠ "items" → dget rf kk = dget tf kk) ∧
          dget rf "items" =
            some (.obj (dupdate (subMap tf "items") (subMap df "items"))) ∧
          (truthy ((dget df "options").getD .null) = true →
              dget rf "options" =
                some (.obj (dupdate (subMap tf "options") (subMap df "options")))) ∧
          (truthy ((dget df "options").getD .null) = false →
              dget rf "options" = dget tf "options")) ∧
    (∀ (a b : Fields) (kk : String), (b.map Prod.fst).Nodup →
        dget (dupdate a b) kk = (dget b kk).or (dget a kk)) := by
  refine ⟨?_, ?_, ?_⟩
  · intro sf k desc h
    rcases h with h | ⟨t, ht, htr⟩
    · simp [mergeOneSource, h]
    · simp [mergeOneSource, ht, htr]
  · intro tf df htr hto hti hdo hdi
    exact mergeOneSource_truthy_spec tf df htr hto hti hdo hdi
  · intro a b kk hnd
    exact dget_dupdate b a kk hnd

/-- Witness for C3 amended: a falsy existing descriptor is replaced
wholesale; a truthy one keeps its other fields and gains merged `items`;
updating with duplicate-free incoming keys lets the incoming value win. -/
theorem c3_v2_merge_amended_witness :
    mergeOneSource (dget [("k", JVal.obj [])] "k") (.obj [("a", .num 1)]) =
      .ok (.obj [("a", .num 1)]) ∧
    (∃ rf, mergeOneSource (some (.obj [("x", JVal.num 7)]))
        (.obj [("items", .obj [("a", .num 1)])]) = .ok (.obj rf) ∧
        (dget rf "items").isSome = true) ∧
    dget (dupdate [("a", JVal.num 1)] [("b", JVal.num 2)]) "b" = some (.num 2) := by
  refine ⟨c3_v2_merge_amended.1 _ "k" _ (Or.inr ⟨_, rfl, rfl⟩), ?_, ?_⟩
  · obtain ⟨rf, h1, _, h3, _⟩ :=
      c3_v2_merge_amended.2.1 [("x", JVal.num 7)] [("items", .obj [("a", .num 1)])]
        rfl (objOrAbsent_of_none rfl) (objOrAbsent_of_none rfl)
        (objOrAbsent_of_none rfl) (objOrAbsent_of_obj rfl)
    exact ⟨rf, h1, by rw [h3]; rfl⟩
  · exact (c3_v2_merge_amended.2.2 [("a", JVal.num 1)] [("b", JVal.num 2)] "b"
      (by decide)).trans rfl

/-- C6: when the referenced manifest of a v2 import contains a pipeline
entry with the requested id, that entry's fields are overlaid onto the
importing entry via `dict.update` — incoming fields win on key collision,
fields present only in the importing entry are preserved — and the
`mpp-import-pipeline` key is removed, so the resolved entry contains no
directive. -/
theorem c6_v2_overlay_and_directive_removed
    (load : String → Option JVal) (sv : JVal) (ef mf : Fields) (path : String)
    (impF impSrcs : Fields) (sv2 : JVal) (ps : List JVal) (pid : JVal) (tfF : Fields)
    (h1 : dget ef "mpp-import-pipeline" = some (.obj mf))
    (h2 : dget mf "path" = some (.str path))
    (h3 : load path = some (.obj impF))
    (h4 : (dget impF "sources").getD (.obj []) = .obj impSrcs)
    (h5 : mergeSourcesV2 sv impSrcs = .ok sv2)
    (h6 : (dget impF "pipelines").getD (.arr []) = .arr ps)
    (h7 : dget mf "id" = some pid)
    (h8 : findPipeline ps pid = .ok (some (.obj tfF)))
    (h9 : (tfF.map Prod.fst).Nodup) :
    ∃ ef2, processV2Entry load sv ef = .ok (sv2, ef2) ∧
      dget ef2 "mpp-import-pipeline" = none ∧
      ∀ k, k ≠ "mpp-import-pipeline" → dget ef2 k = (dget tfF k).or (dget ef k) := by
  refine ⟨ddel (dupdate ef tfF) "mpp-import-pipeline", ?_, ?_, ?_⟩
  · simp [processV2Entry, h1, h2, h3, h4, h5, h6, h7, h8,
      bind, Except.bind, pure, Except.pure]
  · exact dget_ddel_self _ _
  · intro k hk
    rw [dget_ddel_ne _ _ _ hk, dget_dupdate _ _ _ h9]

/-- Witness for C6: importing `stage1` from a concrete manifest keeps the
incoming `type` field and drops the directive. -/
theorem c6_v2_overlay_and_directive_removed_witness :
    ∃ ef2, processV2Entry loadC6 (.obj []) efC6 = .ok (.obj [], ef2) ∧
      dget ef2 "mpp-import-pipeline" = none ∧
      dget ef2 "type" = some (.str "org.osbuild.foo") := by
  obtain ⟨ef2, ha, hb, hc⟩ :=
    c6_v2_overlay_and_directive_removed loadC6 (.obj []) efC6
      [("path", .str "b.json"), ("id", .str "stage1")] "b.json" impC6F []
      (.obj []) [.obj [("name", .str "stage1"), ("type", .str "org.osbuild.foo")]]
      (.str "stage1") [("name", .str "stage1"), ("type", .str "org.osbuild.foo")]
      rfl rfl rfl rfl rfl rfl rfl rfl (by decide)
  refine ⟨ef2, ha, hb, ?_⟩
  rw [hc "type" (by decide)]
  rfl

/-- C7: a v2 import whose referenced manifest's pipelines contain no entry
named by the directive's id makes the whole run fail with the exact
`ValueError` naming both the id and the referenced path, and no output is
produced (the driver returns the error instead of a manifest). -/
theorem c7_pipeline_not_found_fatal
    (load : String → Option JVal) (f mf ef : Fields) (ps : List JVal)
    (i : Nat) (rest : List Nat) (path : String)
    (impF impSrcs : Fields) (ips : List JVal) (s : String)
    (hv : dget f "version" = some (.str "2"))
    (hps : dget f "pipelines" = some (.arr ps))
    (ht : todoIndicesAux ps 0 = .ok (i :: rest))
    (hei : ps[i]? = some (.obj ef))
    (h1 : dget ef "mpp-import-pipeline" = some (.obj mf))
    (h2 : dget mf "path" = some (.str path))
    (h3 : load path = some (.obj impF))
    (h4 : (dget impF "sources").getD (.obj []) = .obj impSrcs)
    (h5 : ∀ sv, ∃ sv2, mergeSourcesV2 sv impSrcs = .ok sv2)
    (h6 : (dget impF "pipelines").getD (.arr []) = .arr ips)
    (h7 : dget mf "id" = some (.str s))
    (h8 : ∀ p ∈ ips, ∃ pf nm, p = .obj pf ∧ dget pf "name" = some (.str nm) ∧ nm ≠ s) :
    runMain load (.obj f) =
      .error (.valueError ("Pipeline \x27" ++ s ++ "\x27 not found in " ++ path)) := by
  obtain ⟨sv2, hm⟩ := h5 (denter f "sources" (.obj [])).2
  have hfind := findPipeline_none s ips h8
  have hstep : stepV2 load f i =
      .error (.valueError ("Pipeline \x27" ++ s ++ "\x27 not found in " ++ path)) := by
    have hpl : dget (denter f "sources" (.obj [])).1 "pipelines" = some (.arr ps) := by
      rw [dget_denter_ne _ _ _ _ (by decide)]
      exact hps
    simp [stepV2, hpl, hei, processV2Entry, h1, h2, h3, h4, hm, h6, h7, hfind,
      bind, Except.bind, pure, Except.pure, pyStr]
  have hrv2 : runV2 load f =
      .error (.valueError ("Pipeline \x27" ++ s ++ "\x27 not found in " ++ path)) := by
    simp [runV2, hps, ht, bind, Except.bind, pure, Except.pure, List.foldlM_cons, hstep]
  simp [runMain, hv, JVal.beq, hrv2]

/-- Witness for C7: requesting id `build` from a manifest whose only
pipeline is named `other` aborts the run with the exact diagnostic. -/
theorem c7_pipeline_not_found_fatal_witness :
    runMain loadC7 (.obj inC7F) =
      .error (.valueError ("Pipeline \x27build\x27 not found in c7.json")) :=
  c7_pipeline_not_found_fatal loadC7 inC7F
    [("path", .str "c7.json"), ("id", .str "build")]
    [("mpp-import-pipeline", .obj [("path", .str "c7.json"), ("id", .str "build")])]
    [.obj [("mpp-import-pipeline", .obj [("path", .str "c7.json"), ("id", .str "build")])]]
    0 [] "c7.json" impC7F [] [.obj [("name", .str "other")]] "build"
    rfl rfl rfl rfl rfl rfl rfl rfl (fun sv => ⟨sv, rfl⟩) rfl rfl
    (by
      intro p hp
      simp at hp
      subst hp
      exact ⟨[("name", .str "other")], "other", rfl, rfl, by decide⟩)

/-- C8: on a url mapping whose values are the shapes the v1 data model
admits — plain URL strings or composite descriptors with a string `url`
field — `_sort_urls` (applied by the driver to the final v1 url mapping)
succeeds, preserves the entries (the result is a permutation, values
unmodified), and orders them ascending by URL key, where the key of a
composite descriptor is its `url` field and of a plain value the string
itself. -/
theorem c8_urls_sorted_by_value (uf : Fields) (h : ∀ p ∈ uf, urlValOk p) :
    ∃ uf2, sortUrls (.obj uf) = .ok (.obj uf2) ∧ uf2.Perm uf ∧
      List.Sorted urlLe uf2 ∧
      (∀ p : String × JVal, ∀ s, p.2 = .str s → urlKeyStr p = s) ∧
      (∀ (p : String × JVal) (d : Fields) (s : String), p.2 = .obj d →
        dget d "url" = some (.str s) → urlKeyStr p = s) := by
  obtain ⟨uf2, h1, h2, h3⟩ := sortUrls_ok uf h
  refine ⟨uf2, h1, h2, h3, ?_, ?_⟩
  · intro p s hs
    simp [urlKeyStr, urlSortKey, hs]
  · intro p d s hd hu
    simp [urlKeyStr, urlSortKey, hd, hu]

/-- Witness for C8 on a concrete two-entry mapping, whose composite entry
sorts by its `url` field (`https://a`) ahead of the plain `https://b`. -/
theorem c8_urls_sorted_by_value_witness :
    ∃ uf2, sortUrls (.obj ufC8) = .ok (.obj uf2) ∧ uf2.Perm ufC8 ∧
      List.Sorted urlLe uf2 := by
  obtain ⟨uf2, h1, h2, h3, _, _⟩ := c8_urls_sorted_by_value ufC8 (by
    intro p hp
    simp [ufC8] at hp
    rcases hp with rfl | rfl
    · exact Or.inl ⟨"https://b", rfl⟩
    · exact Or.inr ⟨[("url", .str "https://a"), ("etag", .str "x")], "https://a",
        rfl, rfl⟩)
  exact ⟨uf2, h1, h2, h3⟩

/-- C2: a v1 manifest with no `mpp-import-pipeline` directive anywhere
along the `pipeline`/`build` chain is passed through: the run succeeds and
emits exactly the input manifest after the get-or-create defaulting of the
`sources.org.osbuild.files.urls` path (the identity when that path is
already present) with the url entries permuted by the final sort — no other
key changes. -/
theorem c2_v1_no_directive_idempotent
    (load : String → Option JVal) (f uf : Fields)
    (HS : (dget f "sources" = none ∧ uf = []) ∨
      ∃ sf, dget f "sources" = some (.obj sf) ∧
        ((dget sf "org.osbuild.files" = none ∧ uf = []) ∨
         ∃ ff, dget sf "org.osbuild.files" = some (.obj ff) ∧
           ((dget ff "urls" = none ∧ uf = []) ∨
            dget ff "urls" = some (.obj uf))))
    (HU : ∀ p ∈ uf, urlValOk p)
    (HC : ∀ k n, nodeAt (.obj f) k = some n → truthy n = true →
      ∃ nf, n = .obj nf ∧ dget nf "mpp-import-pipeline" = none ∧
        (∀ p, dget nf "pipeline" = some p → ∃ pfl, p = .obj pfl)) :
    ∃ f2 uf2,
      enterSourcesUrls f = .ok (f2, .obj uf) ∧
      (∀ k, k ≠ "sources" → dget f2 k = dget f k) ∧
      ((∃ sf ff u0, dget f "sources" = some (.obj sf) ∧
          dget sf "org.osbuild.files" = some (.obj ff) ∧
          dget ff "urls" = some u0) → f2 = f) ∧
      runV1 load f = .ok (.obj (setUrlsAtRoot f2 (.obj uf2))) ∧
      uf2.Perm uf := by
  obtain ⟨f2, hE, hfr, hfull⟩ := enterSourcesUrls_cases f uf HS
  obtain ⟨uf2, hsort, hperm, _⟩ := sortUrls_ok uf HU
  have hmpp0 : dget f "mpp-import-pipeline" = none := by
    by_cases hfe : f = []
    · subst hfe
      rfl
    · have htrue : truthy (.obj f) = true := by
        simp [truthy]
        exact hfe
      obtain ⟨nf, he, hm, _⟩ := HC 0 _ (nodeAt_zero _) htrue
      cases he
      exact hm
  have hpl0 : ∀ p, dget f "pipeline" = some p → ∃ pfl, p = .obj pfl := by
    by_cases hfe : f = []
    · subst hfe
      intro p hp
      exact Option.noConfusion hp
    · have htrue : truthy (.obj f) = true := by
        simp [truthy]
        exact hfe
      obtain ⟨nf, he, _, hq⟩ := HC 0 _ (nodeAt_zero _) htrue
      cases he
      exact hq
  have hplf : dget f2 "pipeline" = dget f "pipeline" := hfr _ (by decide)
  have H2 : ∀ k n, nodeAt (.obj f2) k = some n → truthy n = true →
      ∃ nf, n = .obj nf ∧ dget nf "mpp-import-pipeline" = none ∧
        (∀ p, dget nf "pipeline" = some p → ∃ pfl, p = .obj pfl) := by
    intro k n hk htr
    cases k with
    | zero =>
      rw [nodeAt_zero] at hk
      cases hk
      refine ⟨f2, rfl, ?_, ?_⟩
      · rw [hfr _ (by decide)]
        exact hmpp0
      · intro p hp
        rw [hplf] at hp
        exact hpl0 p hp
    | succ k =>
      rw [nodeAt_congr hplf k] at hk
      exact HC (k + 1) n hk htr
  have hwalk : walkDepth (.obj f2) = .ok none :=
    walkAux_eq_none _ _ le_rfl H2
  refine ⟨f2, uf2, hE, hfr, hfull, ?_, hperm⟩
  simp [runV1, hE, hwalk, hsort, bind, Except.bind, pure, Except.pure]

/-- Witness for C2: on a concrete directive-free manifest with the sources
path fully present, the run emits the input with only its url entries
permuted. -/
theorem c2_v1_no_directive_idempotent_witness :
    ∃ uf2, runV1 (fun _ => none) inC2F = .ok (.obj (setUrlsAtRoot inC2F (.obj uf2))) ∧
      uf2.Perm ufC2 := by
  obtain ⟨f2, uf2, hE, hfr, hfull, hrun, hperm⟩ :=
    c2_v1_no_directive_idempotent (fun _ => none) inC2F ufC2
      (Or.inr ⟨_, rfl, Or.inr ⟨_, rfl, Or.inr rfl⟩⟩)
      (by
        intro p hp
        simp [ufC2] at hp
        rcases hp with rfl | rfl
        · exact Or.inl ⟨"https://b", rfl⟩
        · exact Or.inl ⟨"https://a", rfl⟩)
      (by
        intro k n hk htr
        cases k with
        | zero =>
          rw [nodeAt_zero] at hk
          cases hk
          exact ⟨inC2F, rfl, rfl, fun p hp => ⟨[], by
            simp [inC2F, dget] at hp
            exact hp.symm⟩⟩
        | succ k =>
          simp [nodeAt, inC2F, dget] at hk)
  have hf2 : f2 = inC2F := hfull ⟨_, _, _, rfl, rfl, rfl⟩
  subst hf2
  exact ⟨uf2, hrun, hperm⟩

/-- C4: for a v1 manifest whose shallowest directive along the
`pipeline`/`build` chain sits at depth `d` (no shallower node carries one),
resolution processes only that directive: in the emitted manifest the node
at depth `d` has its `pipeline` replaced wholesale by the imported one and
the directive key removed (all its other fields, apart from the root-level
`sources` merge, unchanged), while every shallower chain node keeps its
`pipeline` field except for the `build` link that threads the chain itself;
the root url mapping becomes a permutation of the merged urls. -/
theorem c4_v1_replaces_only_depth_d
    (load : String → Option JVal) (f uf : Fields) (d : Nat)
    (nd mf impF g iuf : Fields) (path : String)
    (HS : (dget f "sources" = none ∧ uf = []) ∨
      ∃ sf, dget f "sources" = some (.obj sf) ∧
        ((dget sf "org.osbuild.files" = none ∧ uf = []) ∨
         ∃ ff, dget sf "org.osbuild.files" = some (.obj ff) ∧
           ((dget ff "urls" = none ∧ uf = []) ∨
            dget ff "urls" = some (.obj uf))))
    (HU : ∀ p ∈ uf, urlValOk p)
    (Hd : nodeAt (.obj f) d = some (.obj nd))
    (Hsh : ∀ k nf, k < d → nodeAt (.obj f) k = some (.obj nf) →
        dget nf "mpp-import-pipeline" = none)
    (Hm : dget nd "mpp-import-pipeline" = some (.obj mf))
    (Hp : dget mf "path" = some (.str path))
    (Hl : load path = some (.obj impF))
    (Hs : dget impF "sources" = some (.obj [("org.osbuild.files", .obj g)]))
    (Hu : dget g "urls" = some (.obj iuf))
    (HIU : ∀ p ∈ iuf, urlValOk p) :
    ∃ (out uf2 : Fields),
      runV1 load f = .ok (.obj out) ∧
      (∃ ndOut, nodeAt (.obj out) d = some (.obj ndOut) ∧
        dget ndOut "pipeline" = some ((dget impF "pipeline").getD (.obj [])) ∧
        dget ndOut "mpp-import-pipeline" = none ∧
        (∀ kk, kk ≠ "pipeline" → kk ≠ "mpp-import-pipeline" → kk ≠ "sources" →
          dget ndOut kk = dget nd kk)) ∧
      (∀ k nfI, k < d → nodeAt (.obj f) k = some (.obj nfI) →
        ∃ nfO pfI pfO, nodeAt (.obj out) k = some (.obj nfO) ∧
          dget nfI "pipeline" = some (.obj pfI) ∧
          dget nfO "pipeline" = some (.obj pfO) ∧
          ∀ kk, kk ≠ "build" → dget pfO kk = dget pfI kk) ∧
      uf2.Perm (dupdate uf iuf) := by
  obtain ⟨f2, hE, hfr, _⟩ := enterSourcesUrls_cases f uf HS
  have hplf : dget f2 "pipeline" = dget f "pipeline" := hfr _ (by decide)
  obtain ⟨nd2, Hd2, hndfr⟩ : ∃ nd2, nodeAt (.obj f2) d = some (.obj nd2) ∧
      ∀ kk, kk ≠ "sources" → dget nd2 kk = dget nd kk := by
    cases d with
    | zero =>
      rw [nodeAt_zero] at Hd
      cases Hd
      exact ⟨f2, nodeAt_zero _, fun kk h => hfr kk h⟩
    | succ j =>
      refine ⟨nd, ?_, fun _ _ => rfl⟩
      rw [nodeAt_congr hplf]
      exact Hd
  have Hm2 : dget nd2 "mpp-import-pipeline" = some (.obj mf) := by
    rw [hndfr _ (by decide)]
    exact Hm
  have Hsh2 : ∀ k nf, k < d → nodeAt (.obj f2) k = some (.obj nf) →
      dget nf "mpp-import-pipeline" = none := by
    intro k nf hk hkn
    cases k with
    | zero =>
      rw [nodeAt_zero] at hkn
      cases hkn
      rw [hfr _ (by decide)]
      exact Hsh 0 f hk (nodeAt_zero _)
    | succ j =>
      rw [nodeAt_congr hplf] at hkn
      exact Hsh (j + 1) nf hk hkn
  have hwalk : walkDepth (.obj f2) = .ok (some d) :=
    walkAux_eq_some d _ _ nd2 le_rfl Hsh2 Hd2 (by rw [Hm2]; rfl)
  have hproc : processV1Node load nd2 =
      .ok (ddel (dset nd2 "pipeline" ((dget impF "pipeline").getD (.obj [])))
        "mpp-import-pipeline", .obj iuf) :=
    processV1Node_ok load nd2 mf path impF g (.obj iuf) Hm2 Hp Hl Hs Hu
  obtain ⟨f3, hupd, hnodeD, hkframe⟩ :=
    updateAtDepth_spec (processV1Node load) d (.obj f2) nd2 _ (.obj iuf) Hd2 hproc
  have hmwf : ∀ p ∈ dupdate uf iuf, urlValOk p := by
    intro p hp
    rcases mem_dupdate _ _ hp with h | h
    · exact HU p h
    · exact HIU p h
  obtain ⟨uf2, hsort, hperm, _⟩ := sortUrls_ok _ hmwf
  refine ⟨setUrlsAtRoot f3 (.obj uf2), uf2, ?_, ?_, ?_, hperm⟩
  · simp [runV1, hE, hwalk, hupd, hsort, bind, Except.bind, pure, Except.pure]
  · obtain ⟨ndOut, hOutNode, hOutFr⟩ :
        ∃ ndOut, nodeAt (.obj (setUrlsAtRoot f3 (.obj uf2))) d = some (.obj ndOut) ∧
          ∀ kk, kk ≠ "sources" → dget ndOut kk =
            dget (ddel (dset nd2 "pipeline" ((dget impF "pipeline").getD (.obj [])))
              "mpp-import-pipeline") kk := by
      cases d with
      | zero =>
        rw [nodeAt_zero] at hnodeD
        cases hnodeD
        exact ⟨_, nodeAt_zero _, fun kk h => dget_setUrlsAtRoot_ne _ _ _ h⟩
      | succ j =>
        refine ⟨_, ?_, fun _ _ => rfl⟩
        rw [nodeAt_congr (dget_setUrlsAtRoot_ne f3 (.obj uf2) "pipeline" (by decide))]
        exact hnodeD
    refine ⟨ndOut, hOutNode, ?_, ?_, ?_⟩
    · rw [hOutFr "pipeline" (by decide), dget_ddel_ne _ _ _ (by decide), dget_dset_self]
    · rw [hOutFr "mpp-import-pipeline" ?hne]
      · exact dget_ddel_self _ _
      · decide
    · intro kk h1 h2 h3
      rw [hOutFr kk h3, dget_ddel_ne _ _ _ h2, dget_dset_ne _ _ _ _ h1, hndfr kk h3]
  · intro k nfI hk hknI
    obtain ⟨nfM, hknM, hpeq⟩ : ∃ nfM, nodeAt (.obj f2) k = some (.obj nfM) ∧
        dget nfM "pipeline" = dget nfI "pipeline" := by
      cases k with
      | zero =>
        rw [nodeAt_zero] at hknI
        cases hknI
        exact ⟨f2, nodeAt_zero _, hplf⟩
      | succ j =>
        refine ⟨nfI, ?_, rfl⟩
        rw [nodeAt_congr hplf]
        exact hknI
    obtain ⟨pf, b2, hpf, hnode2⟩ := hkframe k nfM hk hknM
    obtain ⟨nfO, hO, hOfr⟩ :
        ∃ nfO, nodeAt (.obj (setUrlsAtRoot f3 (.obj uf2))) k = some (.obj nfO) ∧
          ∀ kk, kk ≠ "sources" → dget nfO kk =
            dget (dset nfM "pipeline" (.obj (dset pf "build" b2))) kk := by
      cases k with
      | zero =>
        rw [nodeAt_zero] at hnode2
        cases hnode2
        exact ⟨_, nodeAt_zero _, fun kk h => dget_setUrlsAtRoot_ne _ _ _ h⟩
      | succ j =>
        refine ⟨_, ?_, fun _ _ => rfl⟩
        rw [nodeAt_congr (dget_setUrlsAtRoot_ne f3 (.obj uf2) "pipeline" (by decide))]
        exact hnode2
    refine ⟨nfO, pf, dset pf "build" b2, hO, ?_, ?_, ?_⟩
    · rw [← hpeq]
      exact hpf
    · rw [hOfr "pipeline" (by decide), dget_dset_self]
    · intro kk hkk
      exact dget_dset_ne _ _ _ _ hkk

/-- Witness for C4 at depth 1: the depth-1 node's pipeline is replaced by
the imported one, the directive disappears, its `note` field survives. -/
theorem c4_v1_replaces_only_depth_d_witness :
    ∃ (out uf2 : Fields),
      runV1 loadC4 inC4F = .ok (.obj out) ∧
      (∃ ndOut, nodeAt (.obj out) 1 = some (.obj ndOut) ∧
        dget ndOut "pipeline" = some (.obj [("stages", .arr [])]) ∧
        dget ndOut "mpp-import-pipeline" = none ∧
        dget ndOut "note" = some (.str "keep")) ∧
      uf2.Perm (dupdate ufC4 iufC4) := by
  obtain ⟨out, uf2, hrun, ⟨ndOut, h1, h2, h3, h4⟩, hsh, hperm⟩ :=
    c4_v1_replaces_only_depth_d loadC4 inC4F ufC4 1
      [("mpp-import-pipeline", .obj [("path", .str "c4.json")]),
       ("note", .str "keep")]
      [("path", .str "c4.json")] impC4F
      [("urls", .obj [("x", .str "https://x")])] iufC4 "c4.json"
      (Or.inr ⟨_, rfl, Or.inr ⟨_, rfl, Or.inr rfl⟩⟩)
      (by
        intro p hp
        simp [ufC4] at hp
        subst hp
        exact Or.inl ⟨"https://k", rfl⟩)
      rfl
      (by
        intro k nf hk hkn
        cases k with
        | zero =>
          rw [nodeAt_zero] at hkn
          cases hkn
          rfl
        | succ j => omega)
      rfl rfl rfl rfl rfl
      (by
        intro p hp
        simp [iufC4] at hp
        subst hp
        exact Or.inl ⟨"https://x", rfl⟩)
  refine ⟨out, uf2, hrun, ⟨ndOut, h1, h2, h3, ?_⟩, hperm⟩
  rw [h4 "note" (by decide) (by decide) (by decide)]
  rfl

/-- C10: for every v2 import and every incoming source kind whose existing
descriptor in the importing manifest is truthy, the merge unconditionally
get-or-creates an `items` key on that descriptor (lines 182-183) — even
when the incoming descriptor has no `items` field at all, in which case an
absent target `items` ends up as an empty mapping. -/
theorem c10_merge_always_inserts_items
    (tf df : Fields) (htr : truthy (.obj tf) = true)
    (hto : objOrAbsent tf "options") (hti : objOrAbsent tf "items")
    (hdo : objOrAbsent df "options") (hdi : objOrAbsent df "items") :
    ∃ rf, mergeOneSource (some (.obj tf)) (.obj df) = .ok (.obj rf) ∧
      (dget rf "items").isSome = true ∧
      (dget tf "items" = none → dget df "items" = none →
        dget rf "items" = some (.obj [])) := by
  obtain ⟨rf, h1, _, h3, _, _⟩ := mergeOneSource_truthy_spec tf df htr hto hti hdo hdi
  refine ⟨rf, h1, by rw [h3]; rfl, ?_⟩
  intro hti0 hdi0
  rw [h3]
  simp [subMap, hti0, hdi0, dupdate]

/-- Witness for C10: merging an incoming descriptor with no `items` at all
into a truthy existing descriptor still inserts `items` (as `{}`). -/
theorem c10_merge_always_inserts_items_witness :
    ∃ rf, mergeOneSource (some (.obj [("w", JVal.num 3)])) (.obj []) =
        .ok (.obj rf) ∧ dget rf "items" = some (.obj []) := by
  obtain ⟨rf, h1, _, h3⟩ :=
    c10_merge_always_inserts_items [("w", JVal.num 3)] [] rfl
      (objOrAbsent_of_none rfl) (objOrAbsent_of_none rfl)
      (objOrAbsent_of_none rfl) (objOrAbsent_of_none rfl)
  exact ⟨rf, h1, h3 rfl rfl⟩

/-- Witness for C5 amended: a referenced manifest declaring the kind
`org.osbuild.foo` is rejected with an `AssertionError`. -/
theorem c5_sources_validation_amended_witness :
    processV1Node loadW5 tfW5 = .error .assertionError :=
  (c5_sources_validation_amended loadW5 tfW5 [("path", .str "w5.json")] "w5.json"
    impW5F [("org.osbuild.foo", .obj [])] rfl rfl rfl (Or.inl rfl)
    (Or.inl rfl)).1.mpr (by decide)

/-- Witness for C9 amended at concrete directives. -/
theorem c9_missing_fields_fatal_amended_witness :
    processV1Node loadC9 [("mpp-import-pipeline", .obj [])] = .error (.keyError "path") ∧
    processV2Entry loadC9 .null [("mpp-import-pipeline", .obj [("x", .num 1)])] =
      .error (.keyError "path") ∧
    (∃ e, processV2Entry loadC9 .null [("mpp-import-pipeline", .obj [("path", .str "p")])] =
      .error e) ∧
    todoIndicesAux [.obj [("name", .str "x"), ("mpp-import-pipeline", .obj [])]] 0 =
      todoIndicesAux [] 1 :=
  ⟨c9_missing_fields_fatal_amended.1 loadC9 _ [] rfl rfl,
   c9_missing_fields_fatal_amended.2.1 loadC9 .null _ [("x", .num 1)] rfl rfl,
   c9_missing_fields_fatal_amended.2.2.1 loadC9 .null _ [("path", .str "p")] rfl rfl,
   c9_missing_fields_fatal_amended.2.2.2 _ [] 0 rfl⟩

end Mpp
